import Mathlib

/-!
Verification of the persistence core of the AWS_AITestCaseGenerator repository.

This file contains a shallow embedding, in Lean 4, of:

* the artifact store (`src/agents/dynamodb_tools.py`): the bulk write path
  `DynamoDBTools.store_test_artifacts` with its helpers `_store_epic`,
  `_store_feature`, `_store_use_case`, `_store_test_case` and
  `_count_artifacts`, and the field-update tools `update_use_case_tool`
  and `update_test_case_tool`;
* the tree reconstruction endpoint
  (`src/backend/api/projects.py`, `get_project_artifacts`, lines 179-311);
* the session manager (`src/backend/services/session_service.py`):
  `create_session`, `append_message`, `get_session`, `update_status`,
  `_is_expired`, over the OpenSearch document client
  (`src/backend/services/opensearch_client.py`).

Python strings are modelled as `List Char`, Python dicts as insertion-ordered
association lists (assignment to an existing key replaces the value in place,
a new key is appended at the end, exactly like a Python dict), DynamoDB items
as records of a partition key, a sort key and an attribute map, and timestamps
as integers (only their ordering is ever used by the code).
-/

namespace MedAssure

/-- Python strings, modelled as lists of characters. -/
abbrev Str := List Char

/-- A parsed DynamoDB attribute value: the code only ever stores strings
(`{'S': ...}`), lists of strings (`{'L': [{'S': ...}, ...]}`) and the single
`artifact_counts` map of numbers (`{'M': {... {'N': ...}}}`). -/
inductive FieldVal where
  | s (v : Str)
  | l (v : List Str)
  | counts (epics features use_cases test_cases : Nat)
deriving DecidableEq, Repr

/-- A parsed item / document attribute map (a Python dict in insertion order). -/
abbrev Fields := List (Str × FieldVal)

/-- Dict lookup. -/
def alookup {κ α : Type} [DecidableEq κ] (m : List (κ × α)) (k : κ) : Option α :=
  match m with
  | [] => none
  | (k', v) :: rest => if k = k' then some v else alookup rest k

/-- Python dict assignment `m[k] = v`: replaces the value in place if the key
is present, otherwise appends the new binding at the end. -/
def ainsert {κ α : Type} [DecidableEq κ] (m : List (κ × α)) (k : κ) (v : α) :
    List (κ × α) :=
  match m with
  | [] => [(k, v)]
  | (k', v') :: rest => if k = k' then (k', v) :: rest else (k', v') :: ainsert rest k v

/-- `d.get(k, '')` for a string-valued attribute. -/
def getStr (fs : Fields) (k : Str) : Str :=
  match alookup fs k with
  | some (.s v) => v
  | _ => []

/-- `d.get(k, [])` for a list-valued attribute. -/
def getLst (fs : Fields) (k : Str) : List Str :=
  match alookup fs k with
  | some (.l v) => v
  | _ => []

/-- `d.get(k)` for a string-valued attribute (None when absent). -/
def getOptS (fs : Fields) (k : Str) : Option Str :=
  match alookup fs k with
  | some (.s v) => some v
  | _ => none

/-- Left-to-right concatenation of the lists produced for each element;
models a Python `for` loop that emits several writes per element. -/
def cmap {α β : Type} (f : α → List β) : List α → List β
  | [] => []
  | a :: l => f a ++ cmap f l

/-! ## Session State Manager (src/backend/services/session_service.py) -/

/-- One entry of a session's `messages` array. -/
structure Message where
  role : Str
  content : Str
  timestamp : Int
deriving DecidableEq, Repr

/-- A session document as indexed by `create_session`.  `expires_at` is
optional because `_is_expired` tolerates its absence. -/
structure Session where
  session_id : Str
  session_type : Str
  project_id : Str
  user_id : Str
  context : List (Str × Str)
  messages : List Message
  status : Str
  created_at : Int
  updated_at : Int
  expires_at : Option Int
deriving DecidableEq, Repr

/-- The OpenSearch session index: document id → document. -/
abbrev SessionStore := List (Str × Session)

/-- The fields that `update_document` is ever called with
(`body={'doc': updates}` merges just these into the stored document). -/
structure DocUpdates where
  messages : Option (List Message) := none
  context : Option (List (Str × Str)) := none
  status : Option Str := none
  updated_at : Option Int := none

/-- Merge a partial update into a stored document (OpenSearch partial update). -/
def applyUpdates (s : Session) (u : DocUpdates) : Session :=
  { s with
    messages := u.messages.getD s.messages
    context := u.context.getD s.context
    status := u.status.getD s.status
    updated_at := u.updated_at.getD s.updated_at }

/-- `opensearch_client.update_document`: a partial update of an existing
document succeeds; updating a missing document raises, which the client
catches and turns into `False`, leaving the store unchanged. -/
def updateDocument (st : SessionStore) (sid : Str) (u : DocUpdates) :
    Bool × SessionStore :=
  match alookup st sid with
  | some s => (true, ainsert st sid (applyUpdates s u))
  | none => (false, st)

/-- `SessionService._is_expired`: expired iff `expires_at` is present and
strictly in the past (`datetime.utcnow() > expires_at`); a missing
`expires_at` is treated as not expired. -/
def isExpired (now : Int) (s : Session) : Bool :=
  match s.expires_at with
  | some t => now > t
  | none => false

/-- The closed status enum of `SessionService.update_status`. -/
def validStatuses : List Str :=
  ["active".data, "complete".data, "expired".data, "error".data]

/-- The closed session-type enum of `SessionService.create_session`. -/
def validSessionTypes : List Str :=
  ["generation".data, "enhancement".data, "migration".data]

/-- Result of `SessionService.get_session`: the session found (if any), the
list of wait times (in seconds) slept between attempts, and the number of
read attempts performed.  `reads i` is what the eventually-consistent index
returns to the `i`-th read (0-based). -/
def gsAux (reads : Nat → Option Session) (attempt : Nat) :
    Nat → Option Session × List Nat × Nat
  | 0 => (none, [], 0)
  | rem + 1 =>
    match reads attempt with
    | some s => (some s, [], 1)
    | none =>
      if rem = 0 then (none, [], 1)
      else
        let p := gsAux reads (attempt + 1) rem
        (p.1, (attempt + 1) :: p.2.1, p.2.2 + 1)

/-- `SessionService.get_session` with the default `max_retries = 5`:
`for attempt in range(5)`: read; return the document if found; otherwise,
when not on the last attempt, sleep `1.0 * (attempt + 1)` seconds and retry;
after the loop return `None`. -/
def getSessionRun (reads : Nat → Option Session) :
    Option Session × List Nat × Nat :=
  gsAux reads 0 5

/-- `get_session` against a store whose reads are consistent (every attempt
sees the same store state). -/
def getSessionD (st : SessionStore) (sid : Str) : Option Session :=
  (getSessionRun (fun _ => alookup st sid)).1

/-- Outcome of `SessionService.append_message` (the two `ValueError`s, the
`False` write-failure return, and the `True` success return). -/
inductive AppendOutcome where
  | notFound
  | expired
  | writeFailed
  | ok
deriving DecidableEq, Repr

/-- `SessionService.append_message`: read the session, reject if missing or
expired, append `{role, content, timestamp}` to `messages` and write back the
full array plus `updated_at`. -/
def appendMessage (now : Int) (st : SessionStore) (sid role content : Str) :
    AppendOutcome × SessionStore :=
  match getSessionD st sid with
  | none => (.notFound, st)
  | some s =>
    if isExpired now s then (.expired, st)
    else
      let msgs := s.messages ++ [⟨role, content, now⟩]
      let r := updateDocument st sid { messages := some msgs, updated_at := some now }
      (if r.1 then .ok else .writeFailed, r.2)

/-- Outcome of `SessionService.update_status` (the `ValueError` on an invalid
status, or the boolean returned by `update_document`). -/
inductive StatusOutcome where
  | invalid
  | done (success : Bool)
deriving DecidableEq, Repr

/-- `SessionService.update_status`: validate the new status against the enum,
then unconditionally write `{status, updated_at}`. -/
def updateStatus (now : Int) (st : SessionStore) (sid status : Str) :
    StatusOutcome × SessionStore :=
  if status ∈ validStatuses then
    let r := updateDocument st sid { status := some status, updated_at := some now }
    (.done r.1, r.2)
  else (.invalid, st)

/-- Result of `SessionService.create_session`. -/
inductive CreateOutcome where
  | invalidType
  | created (sessionId : Str)
deriving DecidableEq, Repr

/-- The effective TTL: Python `ttl_hours or self.DEFAULT_TTL_HOURS`, where
both `None` and `0` are falsy and fall back to the default of 24. -/
def effTtl (ttl_hours : Option Int) : Int :=
  match ttl_hours with
  | none => 24
  | some v => if v = 0 then 24 else v

/-- `SessionService.create_session`: validate the session type, default the
session id (`uuid` stands for the generated UUID), default the user id to
`'system'`, pick `context or initial_context or {}` (empty dicts are falsy),
compute `expires_at = now + timedelta(hours=ttl)` and index the document with
`status='active'` and empty `messages`. -/
def createSession (now : Int) (uuid : Str) (session_type project_id : Str)
    (user_id : Str) (session_id : Str) (initial_context : List (Str × Str))
    (context : List (Str × Str)) (ttl_hours : Option Int) (st : SessionStore) :
    CreateOutcome × SessionStore :=
  if session_type ∈ validSessionTypes then
    let sid := if session_id = [] then uuid else session_id
    let uid := if user_id = [] then "system".data else user_id
    let ctx := if context ≠ [] then context
               else if initial_context ≠ [] then initial_context else []
    let doc : Session :=
      { session_id := sid
        session_type := session_type
        project_id := project_id
        user_id := uid
        context := ctx
        messages := []
        status := "active".data
        created_at := now
        updated_at := now
        expires_at := some (now + effTtl ttl_hours * 3600) }
    (.created sid, ainsert st sid doc)
  else (.invalidType, st)

/-! ## Hierarchical artifact store: input trees (src/agents/dynamodb_tools.py)

The input records carry exactly the keys that `store_test_artifacts` and its
helpers read from the agent-supplied dicts.  `Option Str` models a key that
may be absent (or, for the `jira_*`/optional keys, falsy — the code tests
truthiness and an empty value behaves like an absent one); a plain `List Str`
models a list-valued key for which the code tests truthiness, so an empty
list and an absent key are indistinguishable. -/

structure TcIn where
  test_case_id : Option Str
  test_case_title : Option Str
  test_type : Option Str
  priority : Option Str
  expected_result : Option Str
  review_status : Option Str
  preconditions : List Str
  test_steps : List Str
  compliance_mapping : List Str
  jira_issue_id : Option Str
  jira_issue_key : Option Str
  jira_issue_url : Option Str
  jira_status : Option Str
  model_explanation : Option Str
  comments : Option Str
deriving DecidableEq, Repr

structure UcIn where
  use_case_id : Option Str
  title : Option Str
  description : Option Str
  priority : Option Str
  review_status : Option Str
  acceptance_criteria : List Str
  test_scenarios_outline : List Str
  compliance_mapping : List Str
  jira_issue_id : Option Str
  jira_issue_key : Option Str
  jira_issue_url : Option Str
  jira_status : Option Str
  model_explanation : Option Str
  comments : Option Str
  test_cases : List TcIn
deriving DecidableEq, Repr

structure FeatIn where
  feature_id : Option Str
  feature_name : Option Str
  description : Option Str
  priority : Option Str
  jira_issue_id : Option Str
  jira_issue_key : Option Str
  jira_issue_url : Option Str
  jira_status : Option Str
  use_cases : List UcIn
deriving DecidableEq, Repr

structure EpicIn where
  epic_id : Option Str
  epic_name : Option Str
  description : Option Str
  priority : Option Str
  jira_issue_id : Option Str
  jira_issue_key : Option Str
  jira_issue_url : Option Str
  jira_status : Option Str
  features : List FeatIn
deriving DecidableEq, Repr

/-- The optional `metadata` argument of `store_test_artifacts`. -/
structure MetaIn where
  jira_project_key : Option Str
  notification_email : Option Str
deriving DecidableEq, Repr

/-- Effective identifiers: every `_store_*` helper reads its id with
`.get('..._id', 'UNKNOWN')`. -/
def eidOf (e : EpicIn) : Str := e.epic_id.getD "UNKNOWN".data

def fidOf (f : FeatIn) : Str := f.feature_id.getD "UNKNOWN".data

def uidOf (u : UcIn) : Str := u.use_case_id.getD "UNKNOWN".data

def tidOf (t : TcIn) : Str := t.test_case_id.getD "UNKNOWN".data

/-- A DynamoDB item: partition key, sort key and the attribute map. -/
structure Item where
  pk : Str
  sk : Str
  fields : Fields
deriving DecidableEq, Repr

/-- `'PROJECT#' + project_id`. -/
def projectPK (pid : Str) : Str := "PROJECT#".data ++ pid

/-- A conditionally written string attribute (`if d.get(k): item[k] = ...`). -/
def optF (k : Str) (v : Option Str) : Fields :=
  match v with
  | some s => [(k, .s s)]
  | none => []

/-- A conditionally written list attribute (`if d.get(k): item[k] = {'L': ...}`). -/
def lstF (k : Str) (v : List Str) : Fields :=
  if v = [] then [] else [(k, .l v)]

/-- `artifact_counts`. -/
structure Counts where
  epics : Nat
  features : Nat
  use_cases : Nat
  test_cases : Nat
deriving DecidableEq, Repr

/-- `DynamoDBTools._count_artifacts`: a pure traversal of the input tree. -/
def countArtifacts (epics : List EpicIn) : Counts :=
  { epics := epics.length
    features := (epics.map (fun e => e.features.length)).sum
    use_cases :=
      (epics.map (fun e => (e.features.map (fun f => f.use_cases.length)).sum)).sum
    test_cases :=
      (epics.map (fun e =>
        (e.features.map (fun f =>
          (f.use_cases.map (fun u => u.test_cases.length)).sum)).sum)).sum }

/-- The project `METADATA` item written by `store_test_artifacts`. -/
def metaItem (pid pname sid ts : Str) (meta : MetaIn) (cs : Counts) : Item :=
  { pk := projectPK pid
    sk := "METADATA".data
    fields :=
      [("project_id".data, .s pid),
       ("project_name".data, .s pname),
       ("session_id".data, .s sid),
       ("created_at".data, .s ts),
       ("updated_at".data, .s ts),
       ("artifact_counts".data, .counts cs.epics cs.features cs.use_cases cs.test_cases)]
      ++ optF "jira_project_key".data meta.jira_project_key
      ++ optF "notification_email".data meta.notification_email }

/-- The item written by `DynamoDBTools._store_epic` for the epic itself. -/
def epicItem (pid ts : Str) (e : EpicIn) : Item :=
  { pk := projectPK pid
    sk := "EPIC#".data ++ eidOf e
    fields :=
      [("epic_id".data, .s (eidOf e)),
       ("epic_name".data, .s (e.epic_name.getD [])),
       ("description".data, .s (e.description.getD [])),
       ("priority".data, .s (e.priority.getD "Medium".data)),
       ("created_at".data, .s ts),
       ("updated_at".data, .s ts)]
      ++ optF "jira_issue_id".data e.jira_issue_id
      ++ optF "jira_issue_key".data e.jira_issue_key
      ++ optF "jira_issue_url".data e.jira_issue_url
      ++ optF "jira_status".data e.jira_status }

/-- The item written by `DynamoDBTools._store_feature` for the feature itself. -/
def featItem (pid eid ts : Str) (f : FeatIn) : Item :=
  { pk := projectPK pid
    sk := "EPIC#".data ++ eid ++ "#FEATURE#".data ++ fidOf f
    fields :=
      [("epic_id".data, .s eid),
       ("feature_id".data, .s (fidOf f)),
       ("feature_name".data, .s (f.feature_name.getD [])),
       ("description".data, .s (f.description.getD [])),
       ("priority".data, .s (f.priority.getD "Medium".data)),
       ("created_at".data, .s ts),
       ("updated_at".data, .s ts)]
      ++ optF "jira_issue_id".data f.jira_issue_id
      ++ optF "jira_issue_key".data f.jira_issue_key
      ++ optF "jira_issue_url".data f.jira_issue_url
      ++ optF "jira_status".data f.jira_status }

/-- The item written by `DynamoDBTools._store_use_case` for the use case itself. -/
def ucItem (pid eid fid ts : Str) (u : UcIn) : Item :=
  { pk := projectPK pid
    sk := "EPIC#".data ++ eid ++ "#FEATURE#".data ++ fid ++ "#UC#".data ++ uidOf u
    fields :=
      [("epic_id".data, .s eid),
       ("feature_id".data, .s fid),
       ("use_case_id".data, .s (uidOf u)),
       ("title".data, .s (u.title.getD [])),
       ("description".data, .s (u.description.getD [])),
       ("priority".data, .s (u.priority.getD "Medium".data)),
       ("review_status".data, .s (u.review_status.getD "Pending".data)),
       ("created_at".data, .s ts),
       ("updated_at".data, .s ts)]
      ++ lstF "acceptance_criteria".data u.acceptance_criteria
      ++ lstF "test_scenarios_outline".data u.test_scenarios_outline
      ++ lstF "compliance_mapping".data u.compliance_mapping
      ++ optF "jira_issue_id".data u.jira_issue_id
      ++ optF "jira_issue_key".data u.jira_issue_key
      ++ optF "jira_issue_url".data u.jira_issue_url
      ++ optF "jira_status".data u.jira_status
      ++ optF "model_explanation".data u.model_explanation
      ++ optF "comments".data u.comments }

/-- The item written by `DynamoDBTools._store_test_case`. -/
def tcItem (pid eid fid uid ts : Str) (t : TcIn) : Item :=
  { pk := projectPK pid
    sk := "EPIC#".data ++ eid ++ "#FEATURE#".data ++ fid ++ "#UC#".data ++ uid
          ++ "#TC#".data ++ tidOf t
    fields :=
      [("epic_id".data, .s eid),
       ("feature_id".data, .s fid),
       ("use_case_id".data, .s uid),
       ("test_case_id".data, .s (tidOf t)),
       ("test_case_title".data, .s (t.test_case_title.getD [])),
       ("test_type".data, .s (t.test_type.getD "Functional".data)),
       ("priority".data, .s (t.priority.getD "Medium".data)),
       ("expected_result".data, .s (t.expected_result.getD [])),
       ("review_status".data, .s (t.review_status.getD "Pending".data)),
       ("created_at".data, .s ts),
       ("updated_at".data, .s ts)]
      ++ lstF "preconditions".data t.preconditions
      ++ lstF "test_steps".data t.test_steps
      ++ lstF "compliance_mapping".data t.compliance_mapping
      ++ optF "jira_issue_id".data t.jira_issue_id
      ++ optF "jira_issue_key".data t.jira_issue_key
      ++ optF "jira_issue_url".data t.jira_issue_url
      ++ optF "jira_status".data t.jira_status
      ++ optF "model_explanation".data t.model_explanation
      ++ optF "comments".data t.comments }

/-- The puts performed by `_store_use_case`: the use-case item followed by its
test-case items, in input order. -/
def ucAll (pid eid fid ts : Str) (u : UcIn) : List Item :=
  ucItem pid eid fid ts u :: u.test_cases.map (tcItem pid eid fid (uidOf u) ts)

/-- The puts performed by `_store_feature`. -/
def featAll (pid eid ts : Str) (f : FeatIn) : List Item :=
  featItem pid eid ts f :: cmap (ucAll pid eid (fidOf f) ts) f.use_cases

/-- The puts performed by `_store_epic`. -/
def epicAll (pid ts : Str) (e : EpicIn) : List Item :=
  epicItem pid ts e :: cmap (featAll pid (eidOf e) ts) e.features

/-- All puts performed by one `store_test_artifacts` call, in program order:
the project metadata item first, then a depth-first walk of the tree. -/
def storeItems (pid pname sid ts : Str) (meta : MetaIn) (epics : List EpicIn) :
    List Item :=
  metaItem pid pname sid ts meta (countArtifacts epics) :: cmap (epicAll pid ts) epics

/-- `dynamodb.put_item`: replaces the item with the same (PK, SK) key if one
exists, otherwise adds the item. -/
def putItem (st : List Item) (it : Item) : List Item :=
  match st with
  | [] => [it]
  | x :: rest =>
    if x.pk = it.pk ∧ x.sk = it.sk then it :: rest else x :: putItem rest it

/-- Perform a sequence of puts. -/
def runPuts (st : List Item) (its : List Item) : List Item :=
  its.foldl putItem st

/-- The DynamoDB `query` on `PK = 'PROJECT#' + project_id`. -/
def queryProject (pid : Str) (st : List Item) : List Item :=
  st.filter (fun it => it.pk = projectPK pid)

/-- Result of `store_test_artifacts`: the success dict (with `project_id`,
`project_name`, `artifact_counts` and `stored_at`) or the error dict, which
carries only the error message and the project id. -/
inductive StoreResult where
  | ok (project_id project_name : Str) (counts : Counts) (stored_at : Str)
  | err (msg : Str) (project_id : Str)
deriving DecidableEq, Repr

/-- `DynamoDBTools.store_test_artifacts`.  The writes are non-transactional
sequential puts; `failure = some (k, emsg)` models the `k`-th put (0-based)
raising a `ClientError` with message `emsg`, in which case the exception
propagates to the `except` handler: the puts already performed are kept and
the error dict `{'success': False, 'error': ..., 'project_id': ...}` is
returned.  `failure = none` models all puts succeeding. -/
def storeTestArtifacts (failure : Option (Nat × Str)) (pid pname sid ts : Str)
    (meta : MetaIn) (epics : List EpicIn) (st : List Item) :
    StoreResult × List Item :=
  let its := storeItems pid pname sid ts meta epics
  match failure with
  | some (k, emsg) =>
    if k < its.length then
      (.err ("DynamoDB error storing artifacts: ".data ++ emsg) pid,
       runPuts st (its.take k))
    else (.ok pid pname (countArtifacts epics) ts, runPuts st its)
  | none => (.ok pid pname (countArtifacts epics) ts, runPuts st its)

/-! ## Field update tools (`update_use_case_tool` / `update_test_case_tool`) -/

/-- The parsed `use_case_data` JSON of `update_use_case_tool`: the tool tests
key *presence* (`'title' in use_case`), so `Option` models presence exactly. -/
structure UcUpd where
  title : Option Str
  description : Option Str
  priority : Option Str
  review_status : Option Str
  acceptance_criteria : Option (List Str)
  test_scenarios_outline : Option (List Str)
  compliance_mapping : Option (List Str)
  jira_issue_id : Option Str
  jira_issue_key : Option Str
  jira_issue_url : Option Str
  jira_status : Option Str
  model_explanation : Option Str
  comments : Option Str
deriving DecidableEq, Repr

/-- The parsed `test_case_data` JSON of `update_test_case_tool`. -/
structure TcUpd where
  test_case_title : Option Str
  test_type : Option Str
  priority : Option Str
  expected_result : Option Str
  review_status : Option Str
  preconditions : Option (List Str)
  test_steps : Option (List Str)
  compliance_mapping : Option (List Str)
  jira_issue_id : Option Str
  jira_issue_key : Option Str
  jira_issue_url : Option Str
  jira_status : Option Str
  model_explanation : Option Str
  comments : Option Str
deriving DecidableEq, Repr

/-- A `SET` clause for a string field present in the update payload. -/
def updP (k : Str) (v : Option Str) : Fields :=
  match v with
  | some s => [(k, .s s)]
  | none => []

/-- A `SET` clause for a list field present in the update payload (written
even when the supplied list is empty — presence, not truthiness). -/
def updPL (k : Str) (v : Option (List Str)) : Fields :=
  match v with
  | some l => [(k, .l l)]
  | none => []

/-- The `SET` clauses built by `update_use_case_tool`, in program order,
always starting with `updated_at`. -/
def ucUpdParts (ts : Str) (u : UcUpd) : Fields :=
  [("updated_at".data, .s ts)]
  ++ updP "title".data u.title
  ++ updP "description".data u.description
  ++ updP "priority".data u.priority
  ++ updP "review_status".data u.review_status
  ++ updPL "acceptance_criteria".data u.acceptance_criteria
  ++ updPL "test_scenarios_outline".data u.test_scenarios_outline
  ++ updPL "compliance_mapping".data u.compliance_mapping
  ++ updP "jira_issue_id".data u.jira_issue_id
  ++ updP "jira_issue_key".data u.jira_issue_key
  ++ updP "jira_issue_url".data u.jira_issue_url
  ++ updP "jira_status".data u.jira_status
  ++ updP "model_explanation".data u.model_explanation
  ++ updP "comments".data u.comments

/-- The `SET` clauses built by `update_test_case_tool`, in program order. -/
def tcUpdParts (ts : Str) (t : TcUpd) : Fields :=
  [("updated_at".data, .s ts)]
  ++ updP "test_case_title".data t.test_case_title
  ++ updP "test_type".data t.test_type
  ++ updP "priority".data t.priority
  ++ updP "expected_result".data t.expected_result
  ++ updP "review_status".data t.review_status
  ++ updPL "preconditions".data t.preconditions
  ++ updPL "test_steps".data t.test_steps
  ++ updPL "compliance_mapping".data t.compliance_mapping
  ++ updP "jira_issue_id".data t.jira_issue_id
  ++ updP "jira_issue_key".data t.jira_issue_key
  ++ updP "jira_issue_url".data t.jira_issue_url
  ++ updP "jira_status".data t.jira_status
  ++ updP "model_explanation".data t.model_explanation
  ++ updP "comments".data t.comments

/-- Apply `SET` clauses to an attribute map. -/
def applyParts (fs : Fields) (parts : Fields) : Fields :=
  parts.foldl (fun acc kv => ainsert acc kv.1 kv.2) fs

/-- Find the stored item with the given composite key. -/
def lookupItem (st : List Item) (pk sk : Str) : Option Item :=
  match st with
  | [] => none
  | x :: rest => if x.pk = pk ∧ x.sk = sk then some x else lookupItem rest pk sk

/-- `dynamodb.update_item` with a plain `SET` expression and no condition:
if an item with the key exists its attributes are set; **if no item exists,
DynamoDB creates a new item containing the key and the set attributes**. -/
def updateItemDyn (st : List Item) (pk sk : Str) (parts : Fields) : List Item :=
  match st with
  | [] => [⟨pk, sk, applyParts [] parts⟩]
  | x :: rest =>
    if x.pk = pk ∧ x.sk = sk then ⟨pk, sk, applyParts x.fields parts⟩ :: rest
    else x :: updateItemDyn rest pk sk parts

/-- Result of the update tools: the success dict always carries the new
`updated_at`; there is no not-found outcome. -/
inductive UpdResult where
  | ok (project_id artifact_id updated_at : Str)
deriving DecidableEq, Repr

/-- The sort key built by `update_use_case_tool`. -/
def ucSKey (eid fid uid : Str) : Str :=
  "EPIC#".data ++ eid ++ "#FEATURE#".data ++ fid ++ "#UC#".data ++ uid

/-- The sort key built by `update_test_case_tool`. -/
def tcSKey (eid fid uid tid : Str) : Str :=
  ucSKey eid fid uid ++ "#TC#".data ++ tid

/-- `update_use_case_tool`: build the sort key, build the `SET` clauses,
call `update_item`, return success with the new timestamp. -/
def updateUseCaseTool (ts pid eid fid uid : Str) (u : UcUpd) (st : List Item) :
    UpdResult × List Item :=
  (.ok pid uid ts, updateItemDyn st (projectPK pid) (ucSKey eid fid uid) (ucUpdParts ts u))

/-- `update_test_case_tool`. -/
def updateTestCaseTool (ts pid eid fid uid tid : Str) (t : TcUpd) (st : List Item) :
    UpdResult × List Item :=
  (.ok pid tid ts, updateItemDyn st (projectPK pid) (tcSKey eid fid uid tid) (tcUpdParts ts t))

/-! ## Tree reconstruction (src/backend/api/projects.py, lines 232-296) -/

/-- A reconstructed use case: the parsed item dict plus its attached
`test_cases` (each a parsed test-case dict). -/
structure UcOut where
  data : Fields
  test_cases : List Fields
deriving DecidableEq, Repr

/-- A reconstructed feature with its attached `use_cases`. -/
structure FeatOut where
  data : Fields
  use_cases : List UcOut
deriving DecidableEq, Repr

/-- A reconstructed epic with its attached `features`. -/
structure EpicOut where
  data : Fields
  features : List FeatOut
deriving DecidableEq, Repr

/-- The classification of a stored item by its sort key, reproducing the
`if/elif` chain of `get_project_artifacts` verbatim: equality with
`'METADATA'`, `sk.startswith('EPIC#')`, and the substring tests
`'#FEATURE#' in sk`, `'#UC#' in sk`, `'#TC#' in sk`. -/
inductive RClass where
  | meta
  | epic
  | feat
  | uc
  | tc
  | other
deriving DecidableEq, Repr

def rclass (sk : Str) : RClass :=
  if sk = "METADATA".data then .meta
  else if "EPIC#".data <+: sk ∧ ¬ "#FEATURE#".data <:+: sk then .epic
  else if "#FEATURE#".data <:+: sk ∧ ¬ "#UC#".data <:+: sk then .feat
  else if "#UC#".data <:+: sk ∧ ¬ "#TC#".data <:+: sk then .uc
  else if "#TC#".data <:+: sk then .tc
  else .other

/-- The four intermediate dicts of `get_project_artifacts`:
`epics_map[epic_id] = epic`, `features_map[feature_id] = {data, epic_id}`,
`use_cases_map[use_case_id] = {data, feature_id}`, and
`test_cases_map[use_case_id] = [test_case, ...]`. -/
structure RMaps where
  epicsM : List (Str × Fields)
  featsM : List (Str × (Fields × Str))
  ucsM : List (Str × (Fields × Str))
  tcsM : List (Str × List Fields)
deriving Repr

/-- `test_cases_map.setdefault(uid, []).append(tc)`. -/
def pushBucket (m : List (Str × List Fields)) (k : Str) (v : Fields) :
    List (Str × List Fields) :=
  ainsert m k ((alookup m k).getD [] ++ [v])

/-- One iteration of the first pass of `get_project_artifacts`, grouping a
parsed item into the intermediate dicts according to its sort key. -/
def rstep (m : RMaps) (it : Item) : RMaps :=
  match rclass it.sk with
  | .meta => m
  | .epic =>
    { m with epicsM := ainsert m.epicsM (getStr it.fields "epic_id".data) it.fields }
  | .feat =>
    { m with featsM := ainsert m.featsM (getStr it.fields "feature_id".data)
                         (it.fields, getStr it.fields "epic_id".data) }
  | .uc =>
    { m with ucsM := ainsert m.ucsM (getStr it.fields "use_case_id".data)
                       (it.fields, getStr it.fields "feature_id".data) }
  | .tc =>
    { m with tcsM := pushBucket m.tcsM (getStr it.fields "use_case_id".data) it.fields }
  | .other => m

/-- The bottom-up reconstruction of `get_project_artifacts`: group the items,
attach grouped test cases to their use case (by bare `use_case_id`), append
each use case to the feature named by its `feature_id`, append each feature
to the epic named by its `epic_id`, and return the epics in dict order.
Orphans (children whose named parent is absent from the maps) are dropped. -/
def reconstruct (items : List Item) : List EpicOut :=
  let m := items.foldl rstep ⟨[], [], [], []⟩
  let ucs2 : List (Str × (UcOut × Str)) :=
    m.ucsM.map (fun e => (e.1, (⟨e.2.1, (alookup m.tcsM e.1).getD []⟩, e.2.2)))
  let feats2 : List (Str × (FeatOut × Str)) :=
    m.featsM.map (fun e =>
      (e.1, (⟨e.2.1, ((ucs2.filter (fun u => u.2.2 = e.1)).map (fun u => u.2.1))⟩, e.2.2)))
  m.epicsM.map (fun e =>
    ⟨e.2, (feats2.filter (fun f => f.2.2 = e.1)).map (fun f => f.2.1)⟩)

/-- `get_project_artifacts`: query all items of the project's partition; if
none are found return the not-found error result, otherwise reconstruct. -/
def getProjectArtifactsOpt (pid : Str) (st : List Item) : Option (List EpicOut) :=
  let items := queryProject pid st
  if items.isEmpty then none else some (reconstruct items)

/-- What one first-pass iteration contributes to `epics_map` (the key and the
parsed epic dict), when the item classifies as an epic. -/
def epicE (it : Item) : Option (Str × Fields) :=
  match rclass it.sk with
  | .epic => some (getStr it.fields "epic_id".data, it.fields)
  | _ => none

/-- Contribution to `features_map`: key, parsed feature dict and `epic_id`. -/
def featE (it : Item) : Option (Str × (Fields × Str)) :=
  match rclass it.sk with
  | .feat => some (getStr it.fields "feature_id".data,
      (it.fields, getStr it.fields "epic_id".data))
  | _ => none

/-- Contribution to `use_cases_map`: key, parsed dict and `feature_id`. -/
def ucE (it : Item) : Option (Str × (Fields × Str)) :=
  match rclass it.sk with
  | .uc => some (getStr it.fields "use_case_id".data,
      (it.fields, getStr it.fields "feature_id".data))
  | _ => none

/-- Contribution to the `test_cases_map` bucket of use case `uid`. -/
def tcE (uid : Str) (it : Item) : Option Fields :=
  match rclass it.sk with
  | .tc => if getStr it.fields "use_case_id".data = uid then some it.fields else none
  | _ => none

/-- Combining a bucket's prior contents with later appends. -/
def combineB (o : Option (List Fields)) (l : List Fields) : Option (List Fields) :=
  match o, l with
  | none, [] => none
  | none, l => some l
  | some b, l => some (b ++ l)

/-- Every use case of the project together with its ancestors' effective ids. -/
def allUcPaths (epics : List EpicIn) : List (Str × Str × UcIn) :=
  cmap (fun e => cmap (fun f => f.use_cases.map
    (fun u => (eidOf e, fidOf f, u))) e.features) epics

/-! ## Canonical shapes

To compare a reconstructed tree with an input tree "up to reordering of
children", both are mapped to canonical shape trees whose node payloads are
the ids and leaf field values and whose children form a multiset. -/

structure TcS where
  tc_id : Str
  titl : Str
  tty : Str
  prio : Str
  exp : Str
  rev : Str
  pre : List Str
  steps : List Str
  comp : List Str
  jid : Option Str
  jkey : Option Str
  jurl : Option Str
  jstat : Option Str
  mexp : Option Str
  comm : Option Str
deriving DecidableEq, Repr

structure UcS where
  uc_id : Str
  titl : Str
  desc : Str
  prio : Str
  rev : Str
  acc : List Str
  scen : List Str
  comp : List Str
  jid : Option Str
  jkey : Option Str
  jurl : Option Str
  jstat : Option Str
  mexp : Option Str
  comm : Option Str
  tcs : Multiset TcS
deriving DecidableEq

structure FeatS where
  f_id : Str
  name : Str
  desc : Str
  prio : Str
  jid : Option Str
  jkey : Option Str
  jurl : Option Str
  jstat : Option Str
  ucs : Multiset UcS
deriving DecidableEq

structure EpicS where
  e_id : Str
  name : Str
  desc : Str
  prio : Str
  jid : Option Str
  jkey : Option Str
  jurl : Option Str
  jstat : Option Str
  feats : Multiset FeatS
deriving DecidableEq

/-- Shape of a reconstructed test-case dict (fields read back like the code
reads dicts: strings default to `''`, lists to `[]`, optionals to `None`). -/
def canonTcF (fs : Fields) : TcS :=
  { tc_id := getStr fs "test_case_id".data
    titl := getStr fs "test_case_title".data
    tty := getStr fs "test_type".data
    prio := getStr fs "priority".data
    exp := getStr fs "expected_result".data
    rev := getStr fs "review_status".data
    pre := getLst fs "preconditions".data
    steps := getLst fs "test_steps".data
    comp := getLst fs "compliance_mapping".data
    jid := getOptS fs "jira_issue_id".data
    jkey := getOptS fs "jira_issue_key".data
    jurl := getOptS fs "jira_issue_url".data
    jstat := getOptS fs "jira_status".data
    mexp := getOptS fs "model_explanation".data
    comm := getOptS fs "comments".data }

def canonUcOut (o : UcOut) : UcS :=
  { uc_id := getStr o.data "use_case_id".data
    titl := getStr o.data "title".data
    desc := getStr o.data "description".data
    prio := getStr o.data "priority".data
    rev := getStr o.data "review_status".data
    acc := getLst o.data "acceptance_criteria".data
    scen := getLst o.data "test_scenarios_outline".data
    comp := getLst o.data "compliance_mapping".data
    jid := getOptS o.data "jira_issue_id".data
    jkey := getOptS o.data "jira_issue_key".data
    jurl := getOptS o.data "jira_issue_url".data
    jstat := getOptS o.data "jira_status".data
    mexp := getOptS o.data "model_explanation".data
    comm := getOptS o.data "comments".data
    tcs := Multiset.ofList (o.test_cases.map canonTcF) }

def canonFeatOut (o : FeatOut) : FeatS :=
  { f_id := getStr o.data "feature_id".data
    name := getStr o.data "feature_name".data
    desc := getStr o.data "description".data
    prio := getStr o.data "priority".data
    jid := getOptS o.data "jira_issue_id".data
    jkey := getOptS o.data "jira_issue_key".data
    jurl := getOptS o.data "jira_issue_url".data
    jstat := getOptS o.data "jira_status".data
    ucs := Multiset.ofList (o.use_cases.map canonUcOut) }

def canonEpicOut (o : EpicOut) : EpicS :=
  { e_id := getStr o.data "epic_id".data
    name := getStr o.data "epic_name".data
    desc := getStr o.data "description".data
    prio := getStr o.data "priority".data
    jid := getOptS o.data "jira_issue_id".data
    jkey := getOptS o.data "jira_issue_key".data
    jurl := getOptS o.data "jira_issue_url".data
    jstat := getOptS o.data "jira_status".data
    feats := Multiset.ofList (o.features.map canonFeatOut) }

/-- Shape of an input test case (absent strings read as their write-time
defaults, which is what the stored item will carry). -/
def canonTcIn (t : TcIn) : TcS :=
  { tc_id := tidOf t
    titl := t.test_case_title.getD []
    tty := t.test_type.getD "Functional".data
    prio := t.priority.getD "Medium".data
    exp := t.expected_result.getD []
    rev := t.review_status.getD "Pending".data
    pre := t.preconditions
    steps := t.test_steps
    comp := t.compliance_mapping
    jid := t.jira_issue_id
    jkey := t.jira_issue_key
    jurl := t.jira_issue_url
    jstat := t.jira_status
    mexp := t.model_explanation
    comm := t.comments }

def canonUcIn (u : UcIn) : UcS :=
  { uc_id := uidOf u
    titl := u.title.getD []
    desc := u.description.getD []
    prio := u.priority.getD "Medium".data
    rev := u.review_status.getD "Pending".data
    acc := u.acceptance_criteria
    scen := u.test_scenarios_outline
    comp := u.compliance_mapping
    jid := u.jira_issue_id
    jkey := u.jira_issue_key
    jurl := u.jira_issue_url
    jstat := u.jira_status
    mexp := u.model_explanation
    comm := u.comments
    tcs := Multiset.ofList (u.test_cases.map canonTcIn) }

def canonFeatIn (f : FeatIn) : FeatS :=
  { f_id := fidOf f
    name := f.feature_name.getD []
    desc := f.description.getD []
    prio := f.priority.getD "Medium".data
    jid := f.jira_issue_id
    jkey := f.jira_issue_key
    jurl := f.jira_issue_url
    jstat := f.jira_status
    ucs := Multiset.ofList (f.use_cases.map canonUcIn) }

def canonEpicIn (e : EpicIn) : EpicS :=
  { e_id := eidOf e
    name := e.epic_name.getD []
    desc := e.description.getD []
    prio := e.priority.getD "Medium".data
    jid := e.jira_issue_id
    jkey := e.jira_issue_key
    jurl := e.jira_issue_url
    jstat := e.jira_status
    feats := Multiset.ofList (e.features.map canonFeatIn) }

/-! ## Well-formedness of input trees -/

/-- The id key is present and its value contains no `'#'`. -/
def okId (o : Option Str) : Prop := o ≠ none ∧ '#' ∉ o.getD []

def tcWF (t : TcIn) : Prop := okId t.test_case_id

def ucWF (u : UcIn) : Prop := okId u.use_case_id ∧ ∀ t ∈ u.test_cases, tcWF t

def featWF (f : FeatIn) : Prop := okId f.feature_id ∧ ∀ u ∈ f.use_cases, ucWF u

def epicWF (e : EpicIn) : Prop := okId e.epic_id ∧ ∀ f ∈ e.features, featWF f

/-- All features of the project, in depth-first order. -/
def allFeats (epics : List EpicIn) : List FeatIn := cmap (fun e => e.features) epics

/-- All use cases of the project, in depth-first order. -/
def allUcs (epics : List EpicIn) : List UcIn :=
  cmap (fun f => f.use_cases) (allFeats epics)

/-- All test cases of the project, in depth-first order. -/
def allTcs (epics : List EpicIn) : List TcIn :=
  cmap (fun u => u.test_cases) (allUcs epics)

/-- Ids are unique across the whole project, level by level. -/
def uniqueIds (epics : List EpicIn) : Prop :=
  (epics.map eidOf).Nodup ∧ ((allFeats epics).map fidOf).Nodup ∧
  ((allUcs epics).map uidOf).Nodup ∧ ((allTcs epics).map tidOf).Nodup

/-- The extra hypothesis the reconstruction actually needs beyond the spec's
well-formedness: no epic id may be the literal `UC` or `TC` and no feature id
may be the literal `TC`, otherwise a sort key grows a spurious `#UC#` or
`#TC#` token and the item is misclassified. -/
def noReservedIds (epics : List EpicIn) : Prop :=
  (∀ e ∈ epics, eidOf e ≠ "UC".data ∧ eidOf e ≠ "TC".data) ∧
  (∀ f ∈ allFeats epics, fidOf f ≠ "TC".data)

instance instDecOkId (o : Option Str) : Decidable (okId o) :=
  inferInstanceAs (Decidable (o ≠ none ∧ '#' ∉ o.getD []))

instance instDecTcWF (t : TcIn) : Decidable (tcWF t) :=
  inferInstanceAs (Decidable (okId t.test_case_id))

instance instDecUcWF (u : UcIn) : Decidable (ucWF u) :=
  inferInstanceAs (Decidable (okId u.use_case_id ∧ ∀ t ∈ u.test_cases, tcWF t))

instance instDecFeatWF (f : FeatIn) : Decidable (featWF f) :=
  inferInstanceAs (Decidable (okId f.feature_id ∧ ∀ u ∈ f.use_cases, ucWF u))

instance instDecEpicWF (e : EpicIn) : Decidable (epicWF e) :=
  inferInstanceAs (Decidable (okId e.epic_id ∧ ∀ f ∈ e.features, featWF f))

instance instDecUniqueIds (epics : List EpicIn) : Decidable (uniqueIds epics) :=
  inferInstanceAs (Decidable (_ ∧ _ ∧ _ ∧ _))

instance instDecNoReservedIds (epics : List EpicIn) : Decidable (noReservedIds epics) :=
  inferInstanceAs (Decidable (_ ∧ _))

/-! ## Sort keys as `'#'`-joined segment lists -/

/-- Join segments with the `'#'` delimiter. -/
def interH : List Str → Str
  | [] => []
  | s :: rest =>
    match rest with
    | [] => s
    | _ :: _ => s ++ '#' :: interH rest

/-- The segments strictly between two delimiters (all but the first and the
last segment). -/
def innerSegs (segs : List Str) : List Str := (segs.drop 1).dropLast

/-! ## Concrete demonstration inputs -/

def tcMk (i : Option Str) : TcIn :=
  ⟨i, none, none, none, none, none, [], [], [], none, none, none, none, none, none⟩

def ucMk (i : Option Str) (tcs : List TcIn) : UcIn :=
  ⟨i, none, none, none, none, [], [], [], none, none, none, none, none, none, tcs⟩

def featMk (i : Option Str) (ucs : List UcIn) : FeatIn :=
  ⟨i, none, none, none, none, none, none, none, ucs⟩

def epicMk (i nm : Option Str) (fs : List FeatIn) : EpicIn :=
  ⟨i, nm, none, none, none, none, none, none, fs⟩

def metaNone : MetaIn := ⟨none, none⟩

/-- The concrete scenario of the spec: `P1` with one epic `E1`, one feature
`F1`, one use case `UC1`, two test cases `TC1`, `TC2`. -/
def demoTree : List EpicIn :=
  [epicMk (some "E1".data) (some "Epic one".data)
    [featMk (some "F1".data)
      [ucMk (some "UC1".data) [tcMk (some "TC1".data), tcMk (some "TC2".data)]]]]

/-- A well-formed tree (ids present, `'#'`-free, unique) on which the
round-trip fails: the epic id is the literal `UC`, so the feature's sort key
`EPIC#UC#FEATURE#F` contains `#UC#` and is misclassified as a use case. -/
def cexTree : List EpicIn :=
  [epicMk (some "UC".data) none [featMk (some "F".data) []]]

/-- An input whose epic id contains the `'#'` delimiter. -/
def hashTree : List EpicIn :=
  [epicMk (some "A#B".data) none []]

/-- Two sibling epics both lacking `epic_id`, with different names. -/
def unknownTree : List EpicIn :=
  [epicMk none (some "first".data) [], epicMk none (some "second".data) []]

/-- An update payload with no keys present (only `updated_at` gets set). -/
def ucUpdEmpty : UcUpd :=
  ⟨none, none, none, none, none, none, none, none, none, none, none, none, none⟩

/-- A test-case update payload that only changes the review status. -/
def tcUpdReview : TcUpd :=
  ⟨none, none, none, none, some "Approved".data, none, none, none, none, none,
   none, none, none, none⟩

/-- A stored session in status `complete` whose TTL has not lapsed. -/
def demoSessComplete : Session :=
  ⟨"S1".data, "generation".data, "P1".data, "system".data, [], [],
   "complete".data, 0, 0, some 1000⟩

/-- A stored session still marked `active` whose `expires_at` is in the past. -/
def demoSessStale : Session :=
  ⟨"S2".data, "generation".data, "P1".data, "system".data, [],
   [⟨"user".data, "hello".data, 1⟩], "active".data, 0, 1, some 10⟩

def demoSessStore : SessionStore :=
  [("S1".data, demoSessComplete), ("S2".data, demoSessStale)]

/-! ## Reconstruction helpers: paths and fully-attached map entries -/

/-- Every feature of the project together with its epic's effective id. -/
def allFeatPaths (epics : List EpicIn) : List (Str × FeatIn) :=
  cmap (fun e => e.features.map (fun f => (eidOf e, f))) epics

/-- The entry the reconstruction builds in `use_cases_map` for the use case at
path `p`, with its grouped test cases already attached. -/
def ucFull (pid ts : Str) (p : Str × Str × UcIn) : Str × (UcOut × Str) :=
  (uidOf p.2.2, (⟨(ucItem pid p.1 p.2.1 ts p.2.2).fields,
    p.2.2.test_cases.map
      (fun t => (tcItem pid p.1 p.2.1 (uidOf p.2.2) ts t).fields)⟩, p.2.1))

/-- The entry the reconstruction builds in `features_map` for the feature at
path `q`, with its use cases attached. -/
def featFull (pid ts : Str) (q : Str × FeatIn) : Str × (FeatOut × Str) :=
  (fidOf q.2, (⟨(featItem pid q.1 ts q.2).fields,
    q.2.use_cases.map (fun u => (ucFull pid ts (q.1, fidOf q.2, u)).2.1)⟩, q.1))

/-- The epic node the reconstruction builds for input epic `e`. -/
def epicFull (pid ts : Str) (e : EpicIn) : EpicOut :=
  ⟨(epicItem pid ts e).fields,
   e.features.map (fun f => (featFull pid ts (eidOf e, f)).2.1)⟩

/-- One epic with two features whose use cases share the id `U0`; each of the
two use cases carries one test case. -/
def dupTree : List EpicIn :=
  [epicMk (some "E0".data) none
    [featMk (some "F1".data) [ucMk (some "U0".data) [tcMk (some "T1".data)]],
     featMk (some "F2".data) [ucMk (some "U0".data) [tcMk (some "T2".data)]]]]

/-! ## Helper lemmas: the get_session retry loop -/

theorem gsAux_succ (reads : Nat → Option Session) (attempt rem : Nat) :
    gsAux reads attempt (rem + 1) =
      match reads attempt with
      | some s => (some s, [], 1)
      | none =>
        if rem = 0 then (none, [], 1)
        else
          let p := gsAux reads (attempt + 1) rem
          (p.1, (attempt + 1) :: p.2.1, p.2.2 + 1) := rfl

theorem gsAux_none (reads : Nat → Option Session) :
    ∀ rem attempt, (∀ i, i < rem → reads (attempt + i) = none) →
      gsAux reads attempt rem = (none, List.range' (attempt + 1) (rem - 1), rem) := by
  intro rem
  induction rem with
  | zero => intro attempt _; rfl
  | succ n ih =>
    intro attempt h
    have h0 : reads attempt = none := by simpa using h 0 (Nat.succ_pos n)
    rw [gsAux_succ, h0]
    cases n with
    | zero => simp
    | succ m =>
      have hr := ih (attempt + 1) (fun i hi => by
        have := h (i + 1) (by omega)
        simpa [Nat.add_assoc, Nat.add_comm 1 i] using this)
      simp only [hr]
      simp [List.range']

theorem gsAux_found (reads : Nat → Option Session) :
    ∀ k rem attempt, k < rem → (∀ i, i < k → reads (attempt + i) = none) →
      (reads (attempt + k)).isSome →
      gsAux reads attempt rem =
        (reads (attempt + k), List.range' (attempt + 1) k, k + 1) := by
  intro k
  induction k with
  | zero =>
    intro rem attempt hk _ hsome
    obtain ⟨r, hrem⟩ := Nat.exists_eq_add_of_lt hk
    obtain ⟨s, hs⟩ := Option.isSome_iff_exists.mp (by simpa using hsome)
    subst hrem
    rw [show 0 + r + 1 = r + 1 by omega, gsAux_succ]
    simp only [show attempt + 0 = attempt from rfl] at hs
    simp [hs]
  | succ n ih =>
    intro rem attempt hk hnone hsome
    obtain ⟨r, hrem⟩ := Nat.exists_eq_add_of_lt hk
    subst hrem
    have h0 : reads attempt = none := by simpa using hnone 0 (Nat.succ_pos n)
    rw [show n + 1 + r + 1 = (n + r + 1) + 1 by omega, gsAux_succ, h0]
    have hnr : ¬ n + r + 1 = 0 := by omega
    have hrec := ih (n + r + 1) (attempt + 1) (by omega)
      (fun i hi => by
        have := hnone (i + 1) (by omega)
        simpa [Nat.add_assoc, Nat.add_comm 1 i] using this)
      (by simpa [Nat.add_assoc, Nat.add_comm 1 n] using hsome)
    simp only [hnr, if_false, hrec]
    have harr : attempt + 1 + n = attempt + (n + 1) := by omega
    simp [List.range', harr]

theorem getSessionD_eq (st : SessionStore) (sid : Str) :
    getSessionD st sid = alookup st sid := by
  cases h : alookup st sid with
  | none =>
    have := gsAux_none (fun _ => alookup st sid) 5 0 (fun i _ => h)
    simp [getSessionD, getSessionRun, this]
  | some s =>
    have hf := gsAux_found (fun _ => alookup st sid) 0 5 0 (Nat.succ_pos 4)
      (fun i hi => absurd hi (Nat.not_lt_zero i)) (by simp [h])
    simp only [getSessionD, getSessionRun]
    rw [hf]
    exact h

/-! ## C5: get_session retry policy -/

/-- C5, counterexample: with a document that is never visible, `get_session`
sleeps `1s, 2s, 3s, 4s` between its 5 attempts — there is no fifth wait of
`5s`, contrary to the claimed wait sequence `1s, 2s, 3s, 4s, 5s`. -/
theorem C5_counterexample :
    (getSessionRun (fun _ => none)).2.1 ≠ [1, 2, 3, 4, 5] := by decide

/-- C5, amended: `get_session` performs up to 5 read attempts with waits of
approximately `1s, 2s, 3s, 4s` between successive attempts (no wait after
the final attempt) before returning "not found"; on the first attempt whose
read is visible it returns that session immediately, having made `k + 1`
reads and waited `1s ... ks`. -/
theorem C5_getSession_retries (reads : Nat → Option Session) :
    ((∀ i, i < 5 → reads i = none) →
      getSessionRun reads = (none, [1, 2, 3, 4], 5)) ∧
    (∀ k, k < 5 → (∀ i, i < k → reads i = none) → (reads k).isSome →
      getSessionRun reads = (reads k, List.range' 1 k, k + 1)) := by
  constructor
  · intro h
    have := gsAux_none reads 5 0 (fun i hi => by simpa using h i hi)
    simpa [getSessionRun] using this
  · intro k hk hnone hsome
    have := gsAux_found reads k 5 0 hk (fun i hi => by simpa using hnone i hi)
      (by simpa using hsome)
    simpa [getSessionRun] using this

/-- C5, witness: both branches of the amended theorem at concrete inputs. -/
theorem C5_getSession_retries_witness :
    getSessionRun (fun _ => none) = (none, [1, 2, 3, 4], 5) ∧
    getSessionRun (fun _ => some demoSessComplete) =
      (some demoSessComplete, List.range' 1 0, 1) :=
  ⟨(C5_getSession_retries (fun _ => none)).1 (fun _ _ => rfl),
   (C5_getSession_retries (fun _ => some demoSessComplete)).2 0 (by omega)
     (fun i hi => absurd hi (Nat.not_lt_zero i)) rfl⟩

/-! ## C6: append_message on an expired session -/

/-- C6: `append_message` on a session whose stored `expires_at` is strictly
in the past returns the expired error and leaves the store (in particular the
session's `messages`) unchanged, regardless of the stored `status` field —
the code never consults `status`, only `_is_expired`. -/
theorem C6_append_expired (now : Int) (st : SessionStore) (sid role content : Str)
    (s : Session) (t : Int) (hs : alookup st sid = some s)
    (hexp : s.expires_at = some t) (ht : t < now) :
    appendMessage now st sid role content = (.expired, st) := by
  have hd : getSessionD st sid = some s := (getSessionD_eq st sid).trans hs
  have hex : isExpired now s = true := by
    simp [isExpired, hexp]
    exact ht
  simp [appendMessage, hd, hex]

/-- C6, witness: the stale session `S2` still has `status = 'active'` but its
`expires_at = 10` lies before `now = 20`, so the append is rejected and the
store is untouched. -/
theorem C6_append_expired_witness :
    demoSessStale.status = "active".data ∧
    appendMessage 20 demoSessStore "S2".data "user".data "again".data =
      (.expired, demoSessStore) :=
  ⟨rfl, C6_append_expired 20 demoSessStore "S2".data "user".data "again".data
    demoSessStale 10 (by decide) rfl (by decide)⟩

/-! ## C7: update_status and terminal states -/

/-- C7, counterexample: session `S1` is stored with terminal status
`complete`, yet the public operation `update_status` (not a deletion) moves
it back to `active`. -/
theorem C7_counterexample :
    (alookup demoSessStore "S1".data).map Session.status = some "complete".data ∧
    (alookup (updateStatus 5 demoSessStore "S1".data "active".data).2
        "S1".data).map Session.status = some "active".data := by decide

/-- C7, amended: `update_status` validates only membership of the new status
in the enum and then writes unconditionally; for any stored session —
including one in a terminal status `complete`, `expired` or `error` — it
overwrites `status` with the requested value and reports success. -/
theorem C7_updateStatus_overwrites (now : Int) (st : SessionStore)
    (sid status : Str) (s : Session) (hs : alookup st sid = some s)
    (hv : status ∈ validStatuses) :
    updateStatus now st sid status =
      (.done true, ainsert st sid { s with status := status, updated_at := now }) := by
  simp [updateStatus, hv, updateDocument, hs, applyUpdates]

/-- C7, witness: the amended theorem applied to the `complete` session `S1`
being moved back to `active`. -/
theorem C7_updateStatus_overwrites_witness :
    updateStatus 5 demoSessStore "S1".data "active".data =
      (.done true, ainsert demoSessStore "S1".data
        { demoSessComplete with status := "active".data, updated_at := 5 }) :=
  C7_updateStatus_overwrites 5 demoSessStore "S1".data "active".data
    demoSessComplete (by decide) (by decide)

/-! ## C8: expires_at versus created_at -/

/-- C8, counterexample: `create_session` accepts `ttl_hours = -1` without any
validation and stores a session whose `expires_at` (-3600) is *before* its
`created_at` (0). -/
theorem C8_counterexample :
    (createSession 0 "U".data "generation".data "P1".data [] [] [] []
        (some (-1)) []).1 = .created "U".data ∧
    (alookup (createSession 0 "U".data "generation".data "P1".data [] [] [] []
          (some (-1)) []).2 "U".data).map
        (fun s => (s.created_at, s.expires_at)) = some (0, some (-3600)) ∧
    ¬ ((-3600 : Int) > 0) := by decide

/-- C8, amended: for a valid session type and any non-negative (or omitted)
`ttl_hours` — `None` and `0` are falsy and fall back to the default of 24
hours — the stored session satisfies `expires_at > created_at`.  A negative
`ttl_hours` is accepted by the operation but violates the invariant. -/
theorem C8_expiry_after_creation (now : Int) (uuid stype pid user sid : Str)
    (ictx ctx : List (Str × Str)) (ttl : Option Int) (st : SessionStore)
    (hty : stype ∈ validSessionTypes)
    (httl : ∀ v, ttl = some v → 0 ≤ v) :
    ∃ id s e, createSession now uuid stype pid user sid ictx ctx ttl st =
        (.created id, ainsert st id s) ∧
      s.created_at = now ∧ s.expires_at = some e ∧ s.created_at < e := by
  refine ⟨if sid = [] then uuid else sid,
    { session_id := if sid = [] then uuid else sid
      session_type := stype
      project_id := pid
      user_id := if user = [] then "system".data else user
      context := if ctx ≠ [] then ctx else if ictx ≠ [] then ictx else []
      messages := []
      status := "active".data
      created_at := now
      updated_at := now
      expires_at := some (now + effTtl ttl * 3600) },
    now + effTtl ttl * 3600, ?_, rfl, rfl, ?_⟩
  · simp [createSession, hty]
  · have hpos : 0 < effTtl ttl := by
      cases ttl with
      | none => simp [effTtl]
      | some v =>
        have := httl v rfl
        by_cases hv : v = 0
        · simp [effTtl, hv]
        · simp [effTtl, hv]
          omega
    show now < now + effTtl ttl * 3600
    omega

/-- C8, witness: the amended theorem at the falsy edge `ttl_hours = 0`, which
falls back to the 24-hour default. -/
theorem C8_expiry_after_creation_witness :
    ∃ id s e, createSession 0 "U".data "generation".data "P1".data [] [] [] []
        (some 0) [] = (.created id, ainsert [] id s) ∧
      s.created_at = 0 ∧ s.expires_at = some e ∧ s.created_at < e :=
  C8_expiry_after_creation 0 "U".data "generation".data "P1".data [] [] [] []
    (some 0) [] (by decide) (fun v hv => by injection hv with h; omega)

/-! ## Helper lemmas: the keyed item store -/

theorem runPuts_nil_eq (st : List Item) : runPuts st [] = st := rfl

theorem runPuts_cons_eq (st : List Item) (a : Item) (its : List Item) :
    runPuts st (a :: its) = runPuts (putItem st a) its := rfl

theorem putItem_self_mem (st : List Item) (it : Item) : it ∈ putItem st it := by
  induction st with
  | nil => simp [putItem]
  | cons a rest ih =>
    by_cases h : a.pk = it.pk ∧ a.sk = it.sk
    · simp [putItem, h]
    · simp only [putItem, if_neg h]
      exact List.mem_cons_of_mem a ih

theorem putItem_keeps (st : List Item) (x it : Item) (h : it ∈ st) :
    ∃ it' ∈ putItem st x, it'.pk = it.pk ∧ it'.sk = it.sk := by
  induction st with
  | nil => cases h
  | cons a rest ih =>
    by_cases hk : a.pk = x.pk ∧ a.sk = x.sk
    · rcases List.mem_cons.mp h with rfl | hm
      · exact ⟨x, by simp [putItem, hk], hk.1.symm, hk.2.symm⟩
      · exact ⟨it, by simp [putItem, hk, hm], rfl, rfl⟩
    · rcases List.mem_cons.mp h with rfl | hm
      · exact ⟨it, by simp [putItem, hk], rfl, rfl⟩
      · obtain ⟨it', hmem, hp, hs⟩ := ih hm
        exact ⟨it', by simp [putItem, hk, hmem], hp, hs⟩

theorem runPuts_keeps (its : List Item) :
    ∀ st it, it ∈ st → ∃ it' ∈ runPuts st its, it'.pk = it.pk ∧ it'.sk = it.sk := by
  induction its with
  | nil => exact fun st it h => ⟨it, h, rfl, rfl⟩
  | cons a its ih =>
    intro st it h
    obtain ⟨it', hmem, hp, hs⟩ := putItem_keeps st a it h
    obtain ⟨it'', hmem', hp', hs'⟩ := ih (putItem st a) it' hmem
    exact ⟨it'', by simpa [runPuts_cons_eq] using hmem', hp'.trans hp, hs'.trans hs⟩

theorem runPuts_mem_key (its : List Item) :
    ∀ st it, it ∈ its → ∃ it' ∈ runPuts st its, it'.pk = it.pk ∧ it'.sk = it.sk := by
  induction its with
  | nil => intro _ _ h; cases h
  | cons a its ih =>
    intro st it h
    rcases List.mem_cons.mp h with rfl | hm
    · obtain ⟨it', hmem, hp, hs⟩ :=
        runPuts_keeps its (putItem st it) it (putItem_self_mem st it)
      exact ⟨it', by simpa [runPuts_cons_eq] using hmem, hp, hs⟩
    · obtain ⟨it', hmem, hp, hs⟩ := ih (putItem st a) it hm
      exact ⟨it', by simpa [runPuts_cons_eq] using hmem, hp, hs⟩

theorem cmap_mem {α β : Type} {f : α → List β} {a : α} {b : β} {l : List α}
    (ha : a ∈ l) (hb : b ∈ f a) : b ∈ cmap f l := by
  induction l with
  | nil => cases ha
  | cons c rest ih =>
    rcases List.mem_cons.mp ha with rfl | hm
    · exact List.mem_append_left _ hb
    · exact List.mem_append_right _ (ih hm)

/-! ## C2: no InvalidIdentifier validation -/

/-- C2, counterexample: `store_test_artifacts` accepts an epic whose id is
`A#B` (it contains the delimiter), reports success with the full counts, and
writes the id verbatim into the sort key `EPIC#A#B` — nothing is rejected and
writes do happen. -/
theorem C2_counterexample :
    hashTree.map (fun e => e.epic_id) = [some "A#B".data] ∧
    '#' ∈ "A#B".data ∧
    (storeTestArtifacts none "P1".data "proj".data "S".data "ts".data metaNone
        hashTree []).1 = .ok "P1".data "proj".data ⟨1, 0, 0, 0⟩ "ts".data ∧
    (storeTestArtifacts none "P1".data "proj".data "S".data "ts".data metaNone
        hashTree []).2.map Item.sk = ["METADATA".data, "EPIC#A#B".data] := by
  decide

/-- C2, amended: `store_test_artifacts` performs no identifier validation at
all: for every input — including one whose supplied id contains the delimiter
`'#'` — the operation succeeds (there is no InvalidIdentifier outcome) and
every supplied epic id is embedded verbatim into a stored sort key. -/
theorem C2_no_validation (pid pname sid ts : Str) (meta : MetaIn)
    (epics : List EpicIn) (e : EpicIn) (i : Str)
    (he : e ∈ epics) (hid : e.epic_id = some i) :
    (storeTestArtifacts none pid pname sid ts meta epics []).1 =
      .ok pid pname (countArtifacts epics) ts ∧
    ∃ it ∈ (storeTestArtifacts none pid pname sid ts meta epics []).2,
      it.sk = "EPIC#".data ++ i := by
  constructor
  · rfl
  · have hmem : epicItem pid ts e ∈ storeItems pid pname sid ts meta epics :=
      List.mem_cons_of_mem _ (cmap_mem he (by simp [epicAll]))
    obtain ⟨it', hmem', _, hsk⟩ :=
      runPuts_mem_key (storeItems pid pname sid ts meta epics) [] _ hmem
    refine ⟨it', hmem', ?_⟩
    rw [hsk]
    simp [epicItem, eidOf, hid]

/-- C2, witness: the amended theorem at the concrete `A#B` input. -/
theorem C2_no_validation_witness :
    (storeTestArtifacts none "P1".data "proj".data "S".data "ts".data metaNone
        hashTree []).1 = .ok "P1".data "proj".data (countArtifacts hashTree) "ts".data ∧
    ∃ it ∈ (storeTestArtifacts none "P1".data "proj".data "S".data "ts".data metaNone
        hashTree []).2, it.sk = "EPIC#".data ++ "A#B".data :=
  C2_no_validation "P1".data "proj".data "S".data "ts".data metaNone hashTree
    (epicMk (some "A#B".data) none []) "A#B".data (by decide) rfl

/-! ## C3: partial write failure -/

/-- C3, counterexample: two runs that fail at different puts (after 1 put and
after 2 puts) return *identical* error results, so the returned error cannot
identify how many entities of each level were written before the failure. -/
theorem C3_counterexample :
    (storeTestArtifacts (some (1, "boom".data)) "P1".data "proj".data "S".data
        "ts".data metaNone demoTree []).1 =
      (storeTestArtifacts (some (2, "boom".data)) "P1".data "proj".data "S".data
        "ts".data metaNone demoTree []).1 ∧
    (storeTestArtifacts (some (1, "boom".data)) "P1".data "proj".data "S".data
        "ts".data metaNone demoTree []).2.length = 1 ∧
    (storeTestArtifacts (some (2, "boom".data)) "P1".data "proj".data "S".data
        "ts".data metaNone demoTree []).2.length = 2 := by
  decide

/-- C3, amended: a backing-store failure at the `k`-th put leaves the `k`
previously-written entities in the store (no rollback: each of them is still
present under its key), and returns an error result that carries only the
error message and the project id — the error does not report how many
entities of each level were written. -/
theorem C3_partial_failure (pid pname sid ts emsg : Str) (meta : MetaIn)
    (epics : List EpicIn) (k : Nat)
    (hk : k < (storeItems pid pname sid ts meta epics).length) :
    storeTestArtifacts (some (k, emsg)) pid pname sid ts meta epics [] =
      (.err ("DynamoDB error storing artifacts: ".data ++ emsg) pid,
       runPuts [] ((storeItems pid pname sid ts meta epics).take k)) ∧
    ∀ it ∈ (storeItems pid pname sid ts meta epics).take k,
      ∃ it' ∈ (storeTestArtifacts (some (k, emsg)) pid pname sid ts meta
          epics []).2, it'.pk = it.pk ∧ it'.sk = it.sk := by
  constructor
  · simp [storeTestArtifacts, hk]
  · intro it hit
    obtain ⟨it', hmem, hp, hs⟩ :=
      runPuts_mem_key ((storeItems pid pname sid ts meta epics).take k) [] it hit
    refine ⟨it', ?_, hp, hs⟩
    simpa [storeTestArtifacts, hk] using hmem

/-- C3, witness: the amended theorem at a concrete input failing at put 2. -/
theorem C3_partial_failure_witness :
    storeTestArtifacts (some (2, "boom".data)) "P1".data "proj".data "S".data
        "ts".data metaNone demoTree [] =
      (.err ("DynamoDB error storing artifacts: ".data ++ "boom".data) "P1".data,
       runPuts [] ((storeItems "P1".data "proj".data "S".data "ts".data metaNone
         demoTree).take 2)) ∧
    ∀ it ∈ (storeItems "P1".data "proj".data "S".data "ts".data metaNone
        demoTree).take 2,
      ∃ it' ∈ (storeTestArtifacts (some (2, "boom".data)) "P1".data "proj".data
          "S".data "ts".data metaNone demoTree []).2,
        it'.pk = it.pk ∧ it'.sk = it.sk :=
  C3_partial_failure "P1".data "proj".data "S".data "ts".data "boom".data
    metaNone demoTree 2 (by decide)

/-! ## C9: missing ids default to UNKNOWN and collide -/

/-- C9: an epic that lacks `epic_id` is not rejected but stored under the
literal id `UNKNOWN`; two id-less sibling epics map to the same sort key
`EPIC#UNKNOWN`, so the second put overwrites the first, while the returned
`artifact_counts` still counts both. -/
theorem C9_unknown_ids (pid pname sid ts : Str) (meta : MetaIn) (e1 e2 : EpicIn)
    (h1 : e1.epic_id = none) (h2 : e2.epic_id = none)
    (hf1 : e1.features = []) (hf2 : e2.features = []) :
    (epicItem pid ts e1).sk = "EPIC#UNKNOWN".data ∧
    (epicItem pid ts e2).sk = "EPIC#UNKNOWN".data ∧
    storeTestArtifacts none pid pname sid ts meta [e1, e2] [] =
      (.ok pid pname ⟨2, 0, 0, 0⟩ ts,
       [metaItem pid pname sid ts meta ⟨2, 0, 0, 0⟩, epicItem pid ts e2]) := by
  have hsk1 : (epicItem pid ts e1).sk = "EPIC#UNKNOWN".data := by
    simp [epicItem, eidOf, h1]
  have hsk2 : (epicItem pid ts e2).sk = "EPIC#UNKNOWN".data := by
    simp [epicItem, eidOf, h2]
  have hcounts : countArtifacts [e1, e2] = ⟨2, 0, 0, 0⟩ := by
    simp [countArtifacts, hf1, hf2]
  have hitems : storeItems pid pname sid ts meta [e1, e2] =
      [metaItem pid pname sid ts meta ⟨2, 0, 0, 0⟩, epicItem pid ts e1,
       epicItem pid ts e2] := by
    simp [storeItems, epicAll, cmap, hf1, hf2, hcounts]
  have hmetapk : (metaItem pid pname sid ts meta ⟨2, 0, 0, 0⟩).sk ≠
      (epicItem pid ts e1).sk := by
    rw [hsk1]
    show "METADATA".data ≠ "EPIC#UNKNOWN".data
    decide
  refine ⟨hsk1, hsk2, ?_⟩
  simp only [storeTestArtifacts, hitems, hcounts]
  have hput1 : putItem [] (metaItem pid pname sid ts meta ⟨2, 0, 0, 0⟩) =
      [metaItem pid pname sid ts meta ⟨2, 0, 0, 0⟩] := rfl
  have hcond2 : ¬ ((metaItem pid pname sid ts meta ⟨2, 0, 0, 0⟩).pk =
      (epicItem pid ts e1).pk ∧ (metaItem pid pname sid ts meta ⟨2, 0, 0, 0⟩).sk =
      (epicItem pid ts e1).sk) := fun h => hmetapk h.2
  have hput2 : putItem [metaItem pid pname sid ts meta ⟨2, 0, 0, 0⟩]
      (epicItem pid ts e1) =
      [metaItem pid pname sid ts meta ⟨2, 0, 0, 0⟩, epicItem pid ts e1] := by
    simp [putItem, hcond2]
  have hcond3 : ¬ ((metaItem pid pname sid ts meta ⟨2, 0, 0, 0⟩).pk =
      (epicItem pid ts e2).pk ∧ (metaItem pid pname sid ts meta ⟨2, 0, 0, 0⟩).sk =
      (epicItem pid ts e2).sk) :=
    fun h => hmetapk (h.2.trans (hsk2.trans hsk1.symm))
  have hkey : (epicItem pid ts e1).pk = (epicItem pid ts e2).pk ∧
      (epicItem pid ts e1).sk = (epicItem pid ts e2).sk :=
    ⟨rfl, hsk1.trans hsk2.symm⟩
  have hput3 : putItem [metaItem pid pname sid ts meta ⟨2, 0, 0, 0⟩,
      epicItem pid ts e1] (epicItem pid ts e2) =
      [metaItem pid pname sid ts meta ⟨2, 0, 0, 0⟩, epicItem pid ts e2] := by
    simp [putItem, hcond3, hkey]
  rw [runPuts_cons_eq, hput1, runPuts_cons_eq, hput2, runPuts_cons_eq, hput3,
    runPuts_nil_eq]

/-- C9, witness: the two concrete id-less epics of `unknownTree`. -/
theorem C9_unknown_ids_witness :
    (epicItem "P1".data "ts".data (epicMk none (some "first".data) [])).sk =
      "EPIC#UNKNOWN".data ∧
    (epicItem "P1".data "ts".data (epicMk none (some "second".data) [])).sk =
      "EPIC#UNKNOWN".data ∧
    storeTestArtifacts none "P1".data "proj".data "S".data "ts".data metaNone
        [epicMk none (some "first".data) [], epicMk none (some "second".data) []] [] =
      (.ok "P1".data "proj".data ⟨2, 0, 0, 0⟩ "ts".data,
       [metaItem "P1".data "proj".data "S".data "ts".data metaNone ⟨2, 0, 0, 0⟩,
        epicItem "P1".data "ts".data (epicMk none (some "second".data) [])]) :=
  C9_unknown_ids "P1".data "proj".data "S".data "ts".data metaNone
    (epicMk none (some "first".data) []) (epicMk none (some "second".data) [])
    rfl rfl rfl rfl

/-! ## Helper lemmas: dict update and DynamoDB update_item -/

theorem alookup_ainsert_self {κ α : Type} [DecidableEq κ] (m : List (κ × α))
    (k : κ) (v : α) : alookup (ainsert m k v) k = some v := by
  induction m with
  | nil => simp [ainsert, alookup]
  | cons kv rest ih =>
    by_cases h : k = kv.1
    · simp [ainsert, alookup, h]
    · simp [ainsert, alookup, h, ih]

theorem alookup_ainsert_ne {κ α : Type} [DecidableEq κ] (m : List (κ × α))
    (k k' : κ) (v : α) (h : k ≠ k') :
    alookup (ainsert m k' v) k = alookup m k := by
  induction m with
  | nil => simp [ainsert, alookup, h]
  | cons kv rest ih =>
    by_cases hk : k' = kv.1
    · subst hk
      simp [ainsert, alookup, h]
    · by_cases hk2 : k = kv.1 <;> simp [ainsert, alookup, hk, hk2, ih]

theorem alookup_foldl_ainsert_ne (parts : Fields) :
    ∀ (m : Fields) (k : Str), (∀ kv ∈ parts, kv.1 ≠ k) →
      alookup (parts.foldl (fun acc kv => ainsert acc kv.1 kv.2) m) k =
        alookup m k := by
  induction parts with
  | nil => intro m k _; rfl
  | cons kv rest ih =>
    intro m k h
    have hne : k ≠ kv.1 := fun hk => h kv (List.mem_cons_self kv rest) hk.symm
    calc alookup ((kv :: rest).foldl (fun acc kv => ainsert acc kv.1 kv.2) m) k
        = alookup (ainsert m kv.1 kv.2) k :=
          ih (ainsert m kv.1 kv.2) k (fun x hx => h x (List.mem_cons_of_mem kv hx))
      _ = alookup m k := alookup_ainsert_ne m k kv.1 kv.2 hne

theorem alookup_applyParts_head (fs : Fields) (k : Str) (v : FieldVal)
    (rest : Fields) (hrest : ∀ kv ∈ rest, kv.1 ≠ k) :
    alookup (applyParts fs ((k, v) :: rest)) k = some v := by
  show alookup (rest.foldl (fun acc kv => ainsert acc kv.1 kv.2) (ainsert fs k v)) k
      = some v
  rw [alookup_foldl_ainsert_ne rest (ainsert fs k v) k hrest]
  exact alookup_ainsert_self fs k v

theorem mem_updP {k : Str} {v : Option Str} {kv : Str × FieldVal}
    (h : kv ∈ updP k v) : kv.1 = k := by
  cases v with
  | none => cases h
  | some s =>
    simp [updP] at h
    rw [h]

theorem mem_updPL {k : Str} {v : Option (List Str)} {kv : Str × FieldVal}
    (h : kv ∈ updPL k v) : kv.1 = k := by
  cases v with
  | none => cases h
  | some s =>
    simp [updPL] at h
    rw [h]

theorem ucUpdParts_updated_at (fs : Fields) (ts : Str) (u : UcUpd) :
    alookup (applyParts fs (ucUpdParts ts u)) "updated_at".data = some (.s ts) := by
  have hshape : ucUpdParts ts u = ("updated_at".data, .s ts) ::
      (updP "title".data u.title ++ updP "description".data u.description ++
       updP "priority".data u.priority ++ updP "review_status".data u.review_status ++
       updPL "acceptance_criteria".data u.acceptance_criteria ++
       updPL "test_scenarios_outline".data u.test_scenarios_outline ++
       updPL "compliance_mapping".data u.compliance_mapping ++
       updP "jira_issue_id".data u.jira_issue_id ++
       updP "jira_issue_key".data u.jira_issue_key ++
       updP "jira_issue_url".data u.jira_issue_url ++
       updP "jira_status".data u.jira_status ++
       updP "model_explanation".data u.model_explanation ++
       updP "comments".data u.comments) := by
    simp [ucUpdParts]
  rw [hshape]
  apply alookup_applyParts_head
  intro kv hkv
  simp only [List.mem_append] at hkv
  rcases hkv with ((((((((((((h | h) | h) | h) | h) | h) | h) | h) | h) | h) | h) | h) | h) <;>
    first
    | (rw [mem_updP h]; decide)
    | (rw [mem_updPL h]; decide)

theorem tcUpdParts_updated_at (fs : Fields) (ts : Str) (t : TcUpd) :
    alookup (applyParts fs (tcUpdParts ts t)) "updated_at".data = some (.s ts) := by
  have hshape : tcUpdParts ts t = ("updated_at".data, .s ts) ::
      (updP "test_case_title".data t.test_case_title ++
       updP "test_type".data t.test_type ++
       updP "priority".data t.priority ++
       updP "expected_result".data t.expected_result ++
       updP "review_status".data t.review_status ++
       updPL "preconditions".data t.preconditions ++
       updPL "test_steps".data t.test_steps ++
       updPL "compliance_mapping".data t.compliance_mapping ++
       updP "jira_issue_id".data t.jira_issue_id ++
       updP "jira_issue_key".data t.jira_issue_key ++
       updP "jira_issue_url".data t.jira_issue_url ++
       updP "jira_status".data t.jira_status ++
       updP "model_explanation".data t.model_explanation ++
       updP "comments".data t.comments) := by
    simp [tcUpdParts]
  rw [hshape]
  apply alookup_applyParts_head
  intro kv hkv
  simp only [List.mem_append] at hkv
  rcases hkv with (((((((((((((h | h) | h) | h) | h) | h) | h) | h) | h) | h) | h) | h) | h) | h) <;>
    first
    | (rw [mem_updP h]; decide)
    | (rw [mem_updPL h]; decide)

theorem lookupItem_updateItemDyn (st : List Item) (pk sk : Str) (parts : Fields) :
    lookupItem (updateItemDyn st pk sk parts) pk sk =
      some ⟨pk, sk, applyParts (((lookupItem st pk sk).map Item.fields).getD []) parts⟩ := by
  induction st with
  | nil => simp [updateItemDyn, lookupItem]
  | cons x rest ih =>
    by_cases h : x.pk = pk ∧ x.sk = sk
    · simp [updateItemDyn, lookupItem, h]
    · simp [updateItemDyn, lookupItem, h, ih]

theorem updateItemDyn_not_found (st : List Item) (pk sk : Str) (parts : Fields)
    (h : lookupItem st pk sk = none) :
    updateItemDyn st pk sk parts = st ++ [⟨pk, sk, applyParts [] parts⟩] := by
  induction st with
  | nil => rfl
  | cons x rest ih =>
    by_cases hx : x.pk = pk ∧ x.sk = sk
    · simp [lookupItem, hx] at h
    · have h' : lookupItem rest pk sk = none := by
        simpa [lookupItem, hx] using h
      simp [updateItemDyn, hx, ih h']

/-! ## C4: the update tools are upserts, not guarded updates -/

/-- C4, counterexample: updating a use case that is *not* present in the
store does not return a not-found error — it reports success with the new
timestamp and *creates* a fresh item (the store changes from empty to one
item holding only `updated_at`). -/
theorem C4_counterexample :
    (updateUseCaseTool "ts".data "P1".data "E1".data "F1".data "U1".data
        ucUpdEmpty []).1 = .ok "P1".data "U1".data "ts".data ∧
    (updateUseCaseTool "ts".data "P1".data "E1".data "F1".data "U1".data
        ucUpdEmpty []).2 =
      [⟨"PROJECT#P1".data, "EPIC#E1#FEATURE#F1#UC#U1".data,
        [("updated_at".data, .s "ts".data)]⟩] := by decide

set_option maxHeartbeats 1000000 in
/-- C4, amended: `update_use_case_tool` and `update_test_case_tool` never
return a not-found error: `update_item` is called without any existence
condition, so updating an absent key *creates* an item carrying exactly the
supplied fields plus `updated_at` (an upsert).  Every call returns success
with the new timestamp, and the stored item at the addressed key always ends
up with `updated_at` set to it. -/
theorem C4_update_is_upsert (ts pid eid fid uid tid : Str) (u : UcUpd) (t : TcUpd)
    (st : List Item) :
    ((updateUseCaseTool ts pid eid fid uid u st).1 = .ok pid uid ts ∧
     (∃ it, lookupItem (updateUseCaseTool ts pid eid fid uid u st).2
          (projectPK pid) (ucSKey eid fid uid) = some it ∧
        alookup it.fields "updated_at".data = some (.s ts)) ∧
     (lookupItem st (projectPK pid) (ucSKey eid fid uid) = none →
       (updateUseCaseTool ts pid eid fid uid u st).2 =
         st ++ [⟨projectPK pid, ucSKey eid fid uid, applyParts [] (ucUpdParts ts u)⟩])) ∧
    ((updateTestCaseTool ts pid eid fid uid tid t st).1 = .ok pid tid ts ∧
     (∃ it, lookupItem (updateTestCaseTool ts pid eid fid uid tid t st).2
          (projectPK pid) (tcSKey eid fid uid tid) = some it ∧
        alookup it.fields "updated_at".data = some (.s ts)) ∧
     (lookupItem st (projectPK pid) (tcSKey eid fid uid tid) = none →
       (updateTestCaseTool ts pid eid fid uid tid t st).2 =
         st ++ [⟨projectPK pid, tcSKey eid fid uid tid, applyParts [] (tcUpdParts ts t)⟩])) := by
  have hu2 : (updateUseCaseTool ts pid eid fid uid u st).2 =
      updateItemDyn st (projectPK pid) (ucSKey eid fid uid) (ucUpdParts ts u) := rfl
  have ht2 : (updateTestCaseTool ts pid eid fid uid tid t st).2 =
      updateItemDyn st (projectPK pid) (tcSKey eid fid uid tid) (tcUpdParts ts t) := rfl
  refine ⟨⟨rfl, ?_, ?_⟩, rfl, ?_, ?_⟩
  · rw [hu2]
    exact ⟨_, lookupItem_updateItemDyn st (projectPK pid) (ucSKey eid fid uid)
      (ucUpdParts ts u), ucUpdParts_updated_at _ ts u⟩
  · intro h
    rw [hu2]
    exact updateItemDyn_not_found st _ _ _ h
  · rw [ht2]
    exact ⟨_, lookupItem_updateItemDyn st (projectPK pid) (tcSKey eid fid uid tid)
      (tcUpdParts ts t), tcUpdParts_updated_at _ ts t⟩
  · intro h
    rw [ht2]
    exact updateItemDyn_not_found st _ _ _ h

/-- C4, witness: the amended theorem at a concrete call (a review-status
update of a test case against an empty store). -/
theorem C4_update_is_upsert_witness :
    ((updateUseCaseTool "ts".data "P1".data "E1".data "F1".data "U1".data
        ucUpdEmpty []).1 = .ok "P1".data "U1".data "ts".data ∧
     (∃ it, lookupItem (updateUseCaseTool "ts".data "P1".data "E1".data "F1".data
          "U1".data ucUpdEmpty []).2 (projectPK "P1".data)
          (ucSKey "E1".data "F1".data "U1".data) = some it ∧
        alookup it.fields "updated_at".data = some (.s "ts".data)) ∧
     (lookupItem [] (projectPK "P1".data) (ucSKey "E1".data "F1".data "U1".data) = none →
       (updateUseCaseTool "ts".data "P1".data "E1".data "F1".data "U1".data
          ucUpdEmpty []).2 =
         [] ++ [⟨projectPK "P1".data, ucSKey "E1".data "F1".data "U1".data,
           applyParts [] (ucUpdParts "ts".data ucUpdEmpty)⟩])) ∧
    ((updateTestCaseTool "ts".data "P1".data "E1".data "F1".data "U1".data
        "T1".data tcUpdReview []).1 = .ok "P1".data "T1".data "ts".data ∧
     (∃ it, lookupItem (updateTestCaseTool "ts".data "P1".data "E1".data "F1".data
          "U1".data "T1".data tcUpdReview []).2 (projectPK "P1".data)
          (tcSKey "E1".data "F1".data "U1".data "T1".data) = some it ∧
        alookup it.fields "updated_at".data = some (.s "ts".data)) ∧
     (lookupItem [] (projectPK "P1".data)
          (tcSKey "E1".data "F1".data "U1".data "T1".data) = none →
       (updateTestCaseTool "ts".data "P1".data "E1".data "F1".data "U1".data
          "T1".data tcUpdReview []).2 =
         [] ++ [⟨projectPK "P1".data, tcSKey "E1".data "F1".data "U1".data "T1".data,
           applyParts [] (tcUpdParts "ts".data tcUpdReview)⟩])) :=
  C4_update_is_upsert "ts".data "P1".data "E1".data "F1".data "U1".data "T1".data
    ucUpdEmpty tcUpdReview []


/-! ## Helper lemmas: sort keys and their classification -/

theorem hash_pref_eq : ∀ (xs : Str), '#' ∉ xs → ∀ (s : Str), '#' ∉ s →
    ∀ (w v : Str), xs ++ '#' :: w <+: s ++ '#' :: v → xs = s ∧ w <+: v := by
  intro xs
  induction xs with
  | nil =>
    intro _ s hs w v h
    rw [List.nil_append] at h
    cases s with
    | nil =>
      rw [List.nil_append] at h
      exact ⟨rfl, (List.cons_prefix_cons.mp h).2⟩
    | cons c s' =>
      exfalso
      rw [List.cons_append] at h
      have := (List.cons_prefix_cons.mp h).1
      exact hs (this ▸ List.mem_cons_self c s')
  | cons a xs' ih =>
    intro hx s hs w v h
    rw [List.cons_append] at h
    cases s with
    | nil =>
      exfalso
      rw [List.nil_append] at h
      have := (List.cons_prefix_cons.mp h).1
      exact hx (this ▸ List.mem_cons_self a xs')
    | cons c s' =>
      rw [List.cons_append] at h
      have h' := List.cons_prefix_cons.mp h
      have hx' : '#' ∉ xs' := fun hm => hx (List.mem_cons_of_mem a hm)
      have hs' : '#' ∉ s' := fun hm => hs (List.mem_cons_of_mem c hm)
      obtain ⟨he, hp⟩ := ih hx' s' hs' w v h'.2
      exact ⟨by rw [h'.1, he], hp⟩

theorem infix_skip_hashfree : ∀ (s : Str), '#' ∉ s → ∀ (q t : Str),
    ('#' :: q) <:+: (s ++ t) → ('#' :: q) <:+: t := by
  intro s
  induction s with
  | nil => intro _ q t h; simpa using h
  | cons c s' ih =>
    intro hs q t h
    rcases List.infix_cons_iff.mp (by simpa using h) with hp | hi
    · exfalso
      have := (List.cons_prefix_cons.mp hp).1
      exact hs (this ▸ List.mem_cons_self c s')
    · exact ih (fun hm => hs (List.mem_cons_of_mem c hm)) q t hi

theorem infix_hash_pattern : ∀ (segs : List Str), (∀ s ∈ segs, '#' ∉ s) →
    ∀ (x : Str), '#' ∉ x → ('#' :: (x ++ ['#'])) <:+: interH segs →
    x ∈ innerSegs segs := by
  intro segs
  induction segs with
  | nil =>
    intro _ x _ h
    exact absurd (List.sublist_nil.mp h.sublist) (by simp)
  | cons s rest ih =>
    intro hsegs x hx h
    cases rest with
    | nil =>
      exfalso
      have hmem : '#' ∈ s := h.sublist.subset (List.mem_cons_self _ _)
      exact hsegs s (List.mem_cons_self s []) hmem
    | cons r rest' =>
      have hs : '#' ∉ s := hsegs s (List.mem_cons_self _ _)
      have hskip : ('#' :: (x ++ ['#'])) <:+: ('#' :: interH (r :: rest')) := by
        apply infix_skip_hashfree s hs
        simpa [interH] using h
      rcases List.infix_cons_iff.mp hskip with hp | hi
      · have hpre : x ++ ['#'] <+: interH (r :: rest') :=
          (List.cons_prefix_cons.mp hp).2
        cases rest' with
        | nil =>
          exfalso
          have hmem : '#' ∈ r := hpre.sublist.subset (by simp)
          exact hsegs r (by simp) hmem
        | cons r2 rest'' =>
          have hr : '#' ∉ r := hsegs r (by simp)
          have : x ++ '#' :: [] <+: r ++ '#' :: interH (r2 :: rest'') := by
            simpa [interH] using hpre
          obtain ⟨hxe, _⟩ := hash_pref_eq x hx r hr [] _ this
          subst hxe
          simp [innerSegs, List.dropLast]
      · have hmem := ih (fun s hm => hsegs s (List.mem_cons_of_mem _ hm)) x hx hi
        simp only [innerSegs] at hmem ⊢
        cases rest' with
        | nil => simp at hmem
        | cons r2 rest'' =>
          simp only [List.drop_one, List.tail_cons] at hmem ⊢
          rw [List.dropLast_cons₂]
          exact List.mem_cons_of_mem r hmem

theorem epicSK_interH (e : Str) : "EPIC#".data ++ e = interH ["EPIC".data, e] := rfl

theorem featSK_interH (e f : Str) :
    "EPIC#".data ++ e ++ "#FEATURE#".data ++ f =
      interH ["EPIC".data, e, "FEATURE".data, f] := by
  show _ = "EPIC".data ++ '#' :: (e ++ '#' :: ("FEATURE".data ++ '#' :: f))
  have h1 : "EPIC#".data = "EPIC".data ++ ['#'] := rfl
  have h2 : "#FEATURE#".data = '#' :: ("FEATURE".data ++ ['#']) := rfl
  rw [h1, h2]
  simp

theorem ucSK_interH (e f u : Str) :
    "EPIC#".data ++ e ++ "#FEATURE#".data ++ f ++ "#UC#".data ++ u =
      interH ["EPIC".data, e, "FEATURE".data, f, "UC".data, u] := by
  show _ = "EPIC".data ++ '#' :: (e ++ '#' :: ("FEATURE".data ++ '#' ::
    (f ++ '#' :: ("UC".data ++ '#' :: u))))
  have h1 : "EPIC#".data = "EPIC".data ++ ['#'] := rfl
  have h2 : "#FEATURE#".data = '#' :: ("FEATURE".data ++ ['#']) := rfl
  have h3 : "#UC#".data = '#' :: ("UC".data ++ ['#']) := rfl
  rw [h1, h2, h3]
  simp

theorem tcSK_interH (e f u t : Str) :
    "EPIC#".data ++ e ++ "#FEATURE#".data ++ f ++ "#UC#".data ++ u
        ++ "#TC#".data ++ t =
      interH ["EPIC".data, e, "FEATURE".data, f, "UC".data, u, "TC".data, t] := by
  show _ = "EPIC".data ++ '#' :: (e ++ '#' :: ("FEATURE".data ++ '#' ::
    (f ++ '#' :: ("UC".data ++ '#' :: (u ++ '#' :: ("TC".data ++ '#' :: t))))))
  have h1 : "EPIC#".data = "EPIC".data ++ ['#'] := rfl
  have h2 : "#FEATURE#".data = '#' :: ("FEATURE".data ++ ['#']) := rfl
  have h3 : "#UC#".data = '#' :: ("UC".data ++ ['#']) := rfl
  have h4 : "#TC#".data = '#' :: ("TC".data ++ ['#']) := rfl
  rw [h1, h2, h3, h4]
  simp

theorem epic_sk_ne_meta (r : Str) : "EPIC#".data ++ r ≠ "METADATA".data := by
  intro h
  have h' : ('E' :: ("PIC#".data ++ r)) = ('M' :: "ETADATA".data) := h
  injection h' with h1 _
  exact absurd h1 (by decide)

theorem not_feat_in_epicSK (e : Str) (he : '#' ∉ e) :
    ¬ "#FEATURE#".data <:+: ("EPIC#".data ++ e) := by
  intro h
  rw [epicSK_interH] at h
  have hpat : "#FEATURE#".data = '#' :: ("FEATURE".data ++ ['#']) := rfl
  rw [hpat] at h
  have hfree : ∀ s ∈ ["EPIC".data, e], '#' ∉ s := by
    intro s hs
    simp only [List.mem_cons, List.not_mem_nil, or_false] at hs
    rcases hs with rfl | rfl
    · decide
    · exact he
  have := infix_hash_pattern ["EPIC".data, e] hfree "FEATURE".data (by decide) h
  simp [innerSegs] at this

theorem rclass_epicSK (e : Str) (he : '#' ∉ e) :
    rclass ("EPIC#".data ++ e) = .epic := by
  rw [rclass, if_neg (epic_sk_ne_meta e), if_pos ⟨⟨e, rfl⟩, not_feat_in_epicSK e he⟩]

theorem feat_in_featSK (e f : Str) :
    "#FEATURE#".data <:+: ("EPIC#".data ++ e ++ "#FEATURE#".data ++ f) :=
  ⟨"EPIC#".data ++ e, f, by simp [List.append_assoc]⟩

theorem rclass_featSK (e f : Str) (he : '#' ∉ e) (hf : '#' ∉ f)
    (hne : e ≠ "UC".data) :
    rclass ("EPIC#".data ++ e ++ "#FEATURE#".data ++ f) = .feat := by
  have hmeta : "EPIC#".data ++ e ++ "#FEATURE#".data ++ f ≠ "METADATA".data := by
    have hassoc : "EPIC#".data ++ e ++ "#FEATURE#".data ++ f =
        "EPIC#".data ++ (e ++ ("#FEATURE#".data ++ f)) := by simp [List.append_assoc]
    rw [hassoc]
    exact epic_sk_ne_meta _
  have hnuc : ¬ "#UC#".data <:+: ("EPIC#".data ++ e ++ "#FEATURE#".data ++ f) := by
    intro h
    rw [featSK_interH] at h
    have hpat : "#UC#".data = '#' :: ("UC".data ++ ['#']) := rfl
    rw [hpat] at h
    have hfree : ∀ s ∈ ["EPIC".data, e, "FEATURE".data, f], '#' ∉ s := by
      intro s hs
      simp only [List.mem_cons, List.not_mem_nil, or_false] at hs
      rcases hs with rfl | rfl | rfl | rfl
      · decide
      · exact he
      · decide
      · exact hf
    have := infix_hash_pattern _ hfree "UC".data (by decide) h
    simp only [innerSegs, List.drop_one, List.tail_cons, List.dropLast_cons₂,
      List.dropLast_single, List.mem_cons, List.not_mem_nil, or_false] at this
    rcases this with h1 | h1
    · exact hne h1.symm
    · exact absurd h1 (by decide)
  rw [rclass, if_neg hmeta,
    if_neg (fun hc => hc.2 (feat_in_featSK e f)),
    if_pos ⟨feat_in_featSK e f, hnuc⟩]

theorem feat_in_ucSK (e f u : Str) :
    "#FEATURE#".data <:+:
      ("EPIC#".data ++ e ++ "#FEATURE#".data ++ f ++ "#UC#".data ++ u) :=
  ⟨"EPIC#".data ++ e, f ++ "#UC#".data ++ u, by simp [List.append_assoc]⟩

theorem uc_in_ucSK (e f u : Str) :
    "#UC#".data <:+:
      ("EPIC#".data ++ e ++ "#FEATURE#".data ++ f ++ "#UC#".data ++ u) :=
  ⟨"EPIC#".data ++ e ++ "#FEATURE#".data ++ f, u, by simp [List.append_assoc]⟩

theorem rclass_ucSK (e f u : Str) (he : '#' ∉ e) (hf : '#' ∉ f) (hu : '#' ∉ u)
    (hne : e ≠ "TC".data) (hnf : f ≠ "TC".data) :
    rclass ("EPIC#".data ++ e ++ "#FEATURE#".data ++ f ++ "#UC#".data ++ u) = .uc := by
  have hmeta : "EPIC#".data ++ e ++ "#FEATURE#".data ++ f ++ "#UC#".data ++ u ≠
      "METADATA".data := by
    have hassoc : "EPIC#".data ++ e ++ "#FEATURE#".data ++ f ++ "#UC#".data ++ u =
        "EPIC#".data ++ (e ++ ("#FEATURE#".data ++ (f ++ ("#UC#".data ++ u)))) := by
      simp [List.append_assoc]
    rw [hassoc]
    exact epic_sk_ne_meta _
  have hntc : ¬ "#TC#".data <:+:
      ("EPIC#".data ++ e ++ "#FEATURE#".data ++ f ++ "#UC#".data ++ u) := by
    intro h
    rw [ucSK_interH] at h
    have hpat : "#TC#".data = '#' :: ("TC".data ++ ['#']) := rfl
    rw [hpat] at h
    have hfree : ∀ s ∈ ["EPIC".data, e, "FEATURE".data, f, "UC".data, u], '#' ∉ s := by
      intro s hs
      simp only [List.mem_cons, List.not_mem_nil, or_false] at hs
      rcases hs with rfl | rfl | rfl | rfl | rfl | rfl
      · decide
      · exact he
      · decide
      · exact hf
      · decide
      · exact hu
    have := infix_hash_pattern _ hfree "TC".data (by decide) h
    simp only [innerSegs, List.drop_one, List.tail_cons, List.dropLast_cons₂,
      List.dropLast_single, List.mem_cons, List.not_mem_nil, or_false] at this
    rcases this with h1 | h1 | h1 | h1
    · exact hne h1.symm
    · exact absurd h1 (by decide)
    · exact hnf h1.symm
    · exact absurd h1 (by decide)
  rw [rclass, if_neg hmeta,
    if_neg (fun hc => hc.2 (feat_in_ucSK e f u)),
    if_neg (fun hc => hc.2 (uc_in_ucSK e f u)),
    if_pos ⟨uc_in_ucSK e f u, hntc⟩]

theorem feat_in_tcSK (e f u t : Str) :
    "#FEATURE#".data <:+: ("EPIC#".data ++ e ++ "#FEATURE#".data ++ f
      ++ "#UC#".data ++ u ++ "#TC#".data ++ t) :=
  ⟨"EPIC#".data ++ e, f ++ "#UC#".data ++ u ++ "#TC#".data ++ t,
    by simp [List.append_assoc]⟩

theorem uc_in_tcSK (e f u t : Str) :
    "#UC#".data <:+: ("EPIC#".data ++ e ++ "#FEATURE#".data ++ f
      ++ "#UC#".data ++ u ++ "#TC#".data ++ t) :=
  ⟨"EPIC#".data ++ e ++ "#FEATURE#".data ++ f, u ++ "#TC#".data ++ t,
    by simp [List.append_assoc]⟩

theorem tc_in_tcSK (e f u t : Str) :
    "#TC#".data <:+: ("EPIC#".data ++ e ++ "#FEATURE#".data ++ f
      ++ "#UC#".data ++ u ++ "#TC#".data ++ t) :=
  ⟨"EPIC#".data ++ e ++ "#FEATURE#".data ++ f ++ "#UC#".data ++ u, t,
    by simp [List.append_assoc]⟩

theorem rclass_tcSK (e f u t : Str) :
    rclass ("EPIC#".data ++ e ++ "#FEATURE#".data ++ f ++ "#UC#".data ++ u
      ++ "#TC#".data ++ t) = .tc := by
  have hmeta : "EPIC#".data ++ e ++ "#FEATURE#".data ++ f ++ "#UC#".data ++ u
      ++ "#TC#".data ++ t ≠ "METADATA".data := by
    have hassoc : "EPIC#".data ++ e ++ "#FEATURE#".data ++ f ++ "#UC#".data ++ u
        ++ "#TC#".data ++ t =
        "EPIC#".data ++ (e ++ ("#FEATURE#".data ++ (f ++ ("#UC#".data ++
          (u ++ ("#TC#".data ++ t)))))) := by
      simp [List.append_assoc]
    rw [hassoc]
    exact epic_sk_ne_meta _
  rw [rclass, if_neg hmeta,
    if_neg (fun hc => hc.2 (feat_in_tcSK e f u t)),
    if_neg (fun hc => hc.2 (uc_in_tcSK e f u t)),
    if_neg (fun hc => hc.2 (tc_in_tcSK e f u t)),
    if_pos (tc_in_tcSK e f u t)]

theorem rclass_metaSK : rclass "METADATA".data = .meta := rfl

theorem alookup_chunk_append {κ α : Type} [DecidableEq κ] (a b : List (κ × α)) (k : κ) :
    alookup (a ++ b) k = match alookup a k with
      | some v => some v
      | none => alookup b k := by
  induction a with
  | nil => simp [alookup]
  | cons kv rest ih =>
    by_cases h : k = kv.1
    · simp [alookup, h]
    · simp [alookup, h, ih]

theorem alookup_optF_ne (k k' : Str) (v : Option Str) (h : k ≠ k') (b : Fields) :
    alookup (optF k' v ++ b) k = alookup b k := by
  cases v <;> simp [optF, alookup, h]

theorem alookup_lstF_ne (k k' : Str) (v : List Str) (h : k ≠ k') (b : Fields) :
    alookup (lstF k' v ++ b) k = alookup b k := by
  by_cases hv : v = [] <;> simp [lstF, alookup, h, hv]

theorem alookup_optF_end (k k' : Str) (v : Option Str) (h : k ≠ k') :
    alookup (optF k' v) k = none := by
  cases v <;> simp [optF, alookup, h]

theorem alookup_lstF_end (k k' : Str) (v : List Str) (h : k ≠ k') :
    alookup (lstF k' v) k = none := by
  by_cases hv : v = [] <;> simp [lstF, alookup, h, hv]

theorem alookup_optF_hit (k : Str) (v : Option Str) :
    alookup (optF k v) k = v.map FieldVal.s := by
  cases v <;> simp [optF, alookup]

theorem alookup_optF_hit' (k : Str) (v : Option Str) (b : Fields)
    (hb : alookup b k = none) :
    alookup (optF k v ++ b) k = v.map FieldVal.s := by
  cases v <;> simp [optF, alookup, hb]

theorem alookup_lstF_hit' (k : Str) (v : List Str) (b : Fields)
    (hb : alookup b k = none) :
    alookup (lstF k v ++ b) k = if v = [] then none else some (.l v) := by
  by_cases hv : v = [] <;> simp [lstF, alookup, hb, hv]

theorem getOptS_eq (fs : Fields) (k : Str) (o : Option Str)
    (h : alookup fs k = o.map FieldVal.s) : getOptS fs k = o := by
  cases o <;> simp [getOptS, h]

theorem getLst_eq (fs : Fields) (k : Str) (v : List Str)
    (h : alookup fs k = if v = [] then none else some (.l v)) : getLst fs k = v := by
  by_cases hv : v = [] <;> simp [getLst, h, hv]

theorem getStr_eq (fs : Fields) (k : Str) (s : Str)
    (h : alookup fs k = some (.s s)) : getStr fs k = s := by
  simp [getStr, h]

theorem canonTcF_tcItem (pid eid fid uid ts : Str) (t : TcIn) :
    canonTcF (tcItem pid eid fid uid ts t).fields = canonTcIn t := by
  simp only [canonTcF, canonTcIn, TcS.mk.injEq]
  refine ⟨?_, ?_, ?_, ?_, ?_, ?_, ?_, ?_, ?_, ?_, ?_, ?_, ?_, ?_, ?_⟩
  · apply getStr_eq
    simp only [tcItem, List.append_assoc, List.cons_append, List.nil_append]
    simp +decide [alookup, alookup_optF_ne, alookup_lstF_ne, alookup_optF_hit,
      alookup_optF_hit', alookup_lstF_hit', alookup_optF_end, alookup_lstF_end]
  · apply getStr_eq
    simp only [tcItem, List.append_assoc, List.cons_append, List.nil_append]
    simp +decide [alookup, alookup_optF_ne, alookup_lstF_ne, alookup_optF_hit,
      alookup_optF_hit', alookup_lstF_hit', alookup_optF_end, alookup_lstF_end]
  · apply getStr_eq
    simp only [tcItem, List.append_assoc, List.cons_append, List.nil_append]
    simp +decide [alookup, alookup_optF_ne, alookup_lstF_ne, alookup_optF_hit,
      alookup_optF_hit', alookup_lstF_hit', alookup_optF_end, alookup_lstF_end]
  · apply getStr_eq
    simp only [tcItem, List.append_assoc, List.cons_append, List.nil_append]
    simp +decide [alookup, alookup_optF_ne, alookup_lstF_ne, alookup_optF_hit,
      alookup_optF_hit', alookup_lstF_hit', alookup_optF_end, alookup_lstF_end]
  · apply getStr_eq
    simp only [tcItem, List.append_assoc, List.cons_append, List.nil_append]
    simp +decide [alookup, alookup_optF_ne, alookup_lstF_ne, alookup_optF_hit,
      alookup_optF_hit', alookup_lstF_hit', alookup_optF_end, alookup_lstF_end]
  · apply getStr_eq
    simp only [tcItem, List.append_assoc, List.cons_append, List.nil_append]
    simp +decide [alookup, alookup_optF_ne, alookup_lstF_ne, alookup_optF_hit,
      alookup_optF_hit', alookup_lstF_hit', alookup_optF_end, alookup_lstF_end]
  · apply getLst_eq
    simp only [tcItem, List.append_assoc, List.cons_append, List.nil_append]
    simp +decide [alookup, alookup_optF_ne, alookup_lstF_ne, alookup_optF_hit,
      alookup_optF_hit', alookup_lstF_hit', alookup_optF_end, alookup_lstF_end]
  · apply getLst_eq
    simp only [tcItem, List.append_assoc, List.cons_append, List.nil_append]
    simp +decide [alookup, alookup_optF_ne, alookup_lstF_ne, alookup_optF_hit,
      alookup_optF_hit', alookup_lstF_hit', alookup_optF_end, alookup_lstF_end]
  · apply getLst_eq
    simp only [tcItem, List.append_assoc, List.cons_append, List.nil_append]
    simp +decide [alookup, alookup_optF_ne, alookup_lstF_ne, alookup_optF_hit,
      alookup_optF_hit', alookup_lstF_hit', alookup_optF_end, alookup_lstF_end]
  · apply getOptS_eq
    simp only [tcItem, List.append_assoc, List.cons_append, List.nil_append]
    simp +decide [alookup, alookup_optF_ne, alookup_lstF_ne, alookup_optF_hit,
      alookup_optF_hit', alookup_lstF_hit', alookup_optF_end, alookup_lstF_end]
  · apply getOptS_eq
    simp only [tcItem, List.append_assoc, List.cons_append, List.nil_append]
    simp +decide [alookup, alookup_optF_ne, alookup_lstF_ne, alookup_optF_hit,
      alookup_optF_hit', alookup_lstF_hit', alookup_optF_end, alookup_lstF_end]
  · apply getOptS_eq
    simp only [tcItem, List.append_assoc, List.cons_append, List.nil_append]
    simp +decide [alookup, alookup_optF_ne, alookup_lstF_ne, alookup_optF_hit,
      alookup_optF_hit', alookup_lstF_hit', alookup_optF_end, alookup_lstF_end]
  · apply getOptS_eq
    simp only [tcItem, List.append_assoc, List.cons_append, List.nil_append]
    simp +decide [alookup, alookup_optF_ne, alookup_lstF_ne, alookup_optF_hit,
      alookup_optF_hit', alookup_lstF_hit', alookup_optF_end, alookup_lstF_end]
  · apply getOptS_eq
    simp only [tcItem, List.append_assoc, List.cons_append, List.nil_append]
    simp +decide [alookup, alookup_optF_ne, alookup_lstF_ne, alookup_optF_hit,
      alookup_optF_hit', alookup_lstF_hit', alookup_optF_end, alookup_lstF_end]
  · apply getOptS_eq
    simp only [tcItem, List.append_assoc, List.cons_append, List.nil_append]
    simp +decide [alookup, alookup_optF_ne, alookup_lstF_ne, alookup_optF_hit,
      alookup_optF_hit', alookup_lstF_hit', alookup_optF_end, alookup_lstF_end]

end MedAssure

namespace MedAssure

theorem hash_append_eq (s t : Str) (hs : '#' ∉ s) (ht : '#' ∉ t) (v w : Str)
    (h : s ++ '#' :: v = t ++ '#' :: w) : s = t ∧ v = w := by
  obtain ⟨he, _⟩ := hash_pref_eq s hs t ht v w (h ▸ List.prefix_refl _)
  subst he
  refine ⟨rfl, ?_⟩
  have := List.append_cancel_left h
  injection this

theorem interH_inj : ∀ (a : List Str), (∀ s ∈ a, '#' ∉ s) → ∀ (b : List Str),
    (∀ s ∈ b, '#' ∉ s) → a ≠ [] → b ≠ [] → interH a = interH b → a = b := by
  intro a
  induction a with
  | nil => intro _ b _ ha _ _; exact absurd rfl ha
  | cons s a' ih =>
    intro hfa b hfb _ hb h
    cases b with
    | nil => exact absurd rfl hb
    | cons t b' =>
      cases a' with
      | nil =>
        cases b' with
        | nil =>
          simp only [interH] at h
          rw [h]
        | cons t2 b'' =>
          exfalso
          simp only [interH] at h
          have : '#' ∈ s := h ▸ List.mem_append_right t (List.mem_cons_self _ _)
          exact hfa s (List.mem_cons_self _ _) this
      | cons s2 a'' =>
        cases b' with
        | nil =>
          exfalso
          simp only [interH] at h
          have : '#' ∈ t := h ▸ List.mem_append_right s (List.mem_cons_self _ _)
          exact hfb t (List.mem_cons_self _ _) this
        | cons t2 b'' =>
          simp only [interH] at h
          obtain ⟨he, htl⟩ := hash_append_eq s t (hfa s (List.mem_cons_self _ _))
            (hfb t (List.mem_cons_self _ _)) _ _ h
          have := ih (fun x hx => hfa x (List.mem_cons_of_mem s hx)) (t2 :: b'')
            (fun x hx => hfb x (List.mem_cons_of_mem t hx))
            (by simp) (by simp) htl
          rw [he, this]

theorem map_cmap {α β γ : Type} (f : α → List β) (g : β → γ) (l : List α) :
    (cmap f l).map g = cmap (fun a => (f a).map g) l := by
  induction l with
  | nil => rfl
  | cons a rest ih => simp [cmap, ih]

theorem mem_cmap {α β : Type} {f : α → List β} {b : β} {l : List α} :
    b ∈ cmap f l ↔ ∃ a ∈ l, b ∈ f a := by
  induction l with
  | nil => simp [cmap]
  | cons a rest ih =>
    simp only [cmap, List.mem_append, ih, List.mem_cons]
    constructor
    · rintro (h | ⟨x, hx, hb⟩)
      · exact ⟨a, Or.inl rfl, h⟩
      · exact ⟨x, Or.inr hx, hb⟩
    · rintro ⟨x, rfl | hx, hb⟩
      · exact Or.inl hb
      · exact Or.inr ⟨x, hx, hb⟩

theorem cmap_nodup {α β : Type} (f : α → List β) (l : List α)
    (h1 : ∀ a ∈ l, (f a).Nodup)
    (h2 : l.Pairwise (fun a b => ∀ x ∈ f a, x ∉ f b)) : (cmap f l).Nodup := by
  induction l with
  | nil => simp [cmap]
  | cons a rest ih =>
    rw [cmap, List.nodup_append]
    refine ⟨h1 a (List.mem_cons_self _ _), ih (fun x hx => h1 x (List.mem_cons_of_mem a hx))
      (List.Pairwise.of_cons h2), ?_⟩
    intro x hx hmem
    obtain ⟨b, hb, hxb⟩ := mem_cmap.mp hmem
    exact (List.rel_of_pairwise_cons h2 hb) x hx hxb

end MedAssure

namespace MedAssure

theorem okId_hashfree {o : Option Str} (h : okId o) (d : Str) : '#' ∉ o.getD d := by
  obtain ⟨hne, hh⟩ := h
  cases o with
  | none => exact absurd rfl hne
  | some v => exact hh

theorem interH_cons_cons (x : Str) (r : List Str) :
    interH ("EPIC".data :: x :: r) = "EPIC#".data ++ interH (x :: r) := rfl

theorem sk_mem_ucAll {pid e f ts : Str} {u : UcIn} {it : Item}
    (h : it ∈ ucAll pid e f ts u) (hwf : ucWF u) :
    ∃ rest, (∀ s ∈ rest, '#' ∉ s) ∧
      it.sk = interH (["EPIC".data, e, "FEATURE".data, f, "UC".data, uidOf u] ++ rest) := by
  rcases List.mem_cons.mp h with rfl | hm
  · exact ⟨[], by simp, ucSK_interH e f (uidOf u)⟩
  · obtain ⟨t, ht, rfl⟩ := List.mem_map.mp hm
    refine ⟨["TC".data, tidOf t], ?_, ?_⟩
    · intro s hs
      simp only [List.mem_cons, List.not_mem_nil, or_false] at hs
      rcases hs with rfl | rfl
      · decide
      · exact okId_hashfree (hwf.2 t ht) _
    · exact tcSK_interH e f (uidOf u) (tidOf t)

theorem sk_mem_featAll {pid e ts : Str} {fx : FeatIn} {it : Item}
    (h : it ∈ featAll pid e ts fx) (hwf : featWF fx) :
    ∃ rest, (∀ s ∈ rest, '#' ∉ s) ∧
      it.sk = interH (["EPIC".data, e, "FEATURE".data, fidOf fx] ++ rest) := by
  rcases List.mem_cons.mp h with rfl | hm
  · exact ⟨[], by simp, featSK_interH e (fidOf fx)⟩
  · obtain ⟨u, hu, hit⟩ := mem_cmap.mp hm
    obtain ⟨rest, hrest, hsk⟩ := sk_mem_ucAll hit (hwf.2 u hu)
    refine ⟨"UC".data :: uidOf u :: rest, ?_, by simpa using hsk⟩
    intro s hs
    rcases List.mem_cons.mp hs with rfl | hs'
    · decide
    · rcases List.mem_cons.mp hs' with rfl | hs''
      · exact okId_hashfree (hwf.2 u hu).1 _
      · exact hrest s hs''

theorem sk_mem_epicAll {pid ts : Str} {ex : EpicIn} {it : Item}
    (h : it ∈ epicAll pid ts ex) (hwf : epicWF ex) :
    ∃ rest, (∀ s ∈ rest, '#' ∉ s) ∧
      it.sk = interH (["EPIC".data, eidOf ex] ++ rest) := by
  rcases List.mem_cons.mp h with rfl | hm
  · exact ⟨[], by simp, epicSK_interH (eidOf ex)⟩
  · obtain ⟨f, hf, hit⟩ := mem_cmap.mp hm
    obtain ⟨rest, hrest, hsk⟩ := sk_mem_featAll hit (hwf.2 f hf)
    refine ⟨"FEATURE".data :: fidOf f :: rest, ?_, by simpa using hsk⟩
    intro s hs
    rcases List.mem_cons.mp hs with rfl | hs'
    · decide
    · rcases List.mem_cons.mp hs' with rfl | hs''
      · exact okId_hashfree (hwf.2 f hf).1 _
      · exact hrest s hs''

end MedAssure

namespace MedAssure

theorem sks_nodup_ucAll (pid e f ts : Str) (u : UcIn) (he : '#' ∉ e) (hf : '#' ∉ f)
    (hwf : ucWF u) (hnd : (u.test_cases.map tidOf).Nodup) :
    ((ucAll pid e f ts u).map Item.sk).Nodup := by
  have hu : '#' ∉ uidOf u := okId_hashfree hwf.1 _
  simp only [ucAll, List.map_cons, List.map_map]
  rw [List.nodup_cons]
  constructor
  · intro hmem
    obtain ⟨t, ht, hsk⟩ := List.mem_map.mp hmem
    have ht' : '#' ∉ tidOf t := okId_hashfree (hwf.2 t ht) _
    have h6 : interH ["EPIC".data, e, "FEATURE".data, f, "UC".data, uidOf u,
        "TC".data, tidOf t] = interH ["EPIC".data, e, "FEATURE".data, f, "UC".data,
        uidOf u] := by
      calc interH ["EPIC".data, e, "FEATURE".data, f, "UC".data, uidOf u,
            "TC".data, tidOf t]
          = (tcItem pid e f (uidOf u) ts t).sk := (tcSK_interH e f (uidOf u) (tidOf t)).symm
        _ = (ucItem pid e f ts u).sk := hsk
        _ = _ := ucSK_interH e f (uidOf u)
    have := interH_inj _ (by
        intro s hs
        simp only [List.mem_cons, List.not_mem_nil, or_false] at hs
        rcases hs with rfl | rfl | rfl | rfl | rfl | rfl | rfl | rfl
        · decide
        · exact he
        · decide
        · exact hf
        · decide
        · exact hu
        · decide
        · exact ht') _ (by
        intro s hs
        simp only [List.mem_cons, List.not_mem_nil, or_false] at hs
        rcases hs with rfl | rfl | rfl | rfl | rfl | rfl
        · decide
        · exact he
        · decide
        · exact hf
        · decide
        · exact hu) (by simp) (by simp) h6
    simp at this
  · have hmapeq : List.map (Item.sk ∘ tcItem pid e f (uidOf u) ts) u.test_cases =
        (u.test_cases.map tidOf).map (fun tid =>
          interH ["EPIC".data, e, "FEATURE".data, f, "UC".data, uidOf u,
            "TC".data, tid]) := by
      rw [List.map_map]
      apply List.map_congr_left
      intro t _
      exact tcSK_interH e f (uidOf u) (tidOf t)
    rw [hmapeq]
    apply List.Nodup.map_on ?_ hnd
    intro x hx y hy hxy
    obtain ⟨tx, htx, rfl⟩ := List.mem_map.mp hx
    obtain ⟨ty, hty, rfl⟩ := List.mem_map.mp hy
    have hxf : '#' ∉ tidOf tx := okId_hashfree (hwf.2 tx htx) _
    have hyf : '#' ∉ tidOf ty := okId_hashfree (hwf.2 ty hty) _
    have := interH_inj _ (by
        intro s hs
        simp only [List.mem_cons, List.not_mem_nil, or_false] at hs
        rcases hs with rfl | rfl | rfl | rfl | rfl | rfl | rfl | rfl
        · decide
        · exact he
        · decide
        · exact hf
        · decide
        · exact hu
        · decide
        · exact hxf) _ (by
        intro s hs
        simp only [List.mem_cons, List.not_mem_nil, or_false] at hs
        rcases hs with rfl | rfl | rfl | rfl | rfl | rfl | rfl | rfl
        · decide
        · exact he
        · decide
        · exact hf
        · decide
        · exact hu
        · decide
        · exact hyf) (by simp) (by simp) hxy
    simpa using this

end MedAssure

namespace MedAssure

theorem hf_nil : ∀ s ∈ ([] : List Str), '#' ∉ s := by simp

theorem hf_cons {x : Str} {l : List Str} (hx : '#' ∉ x) (hl : ∀ s ∈ l, '#' ∉ s) :
    ∀ s ∈ x :: l, '#' ∉ s := by
  intro s hs
  rcases List.mem_cons.mp hs with rfl | h
  · exact hx
  · exact hl s h

theorem hf_app {l1 l2 : List Str} (h1 : ∀ s ∈ l1, '#' ∉ s) (h2 : ∀ s ∈ l2, '#' ∉ s) :
    ∀ s ∈ l1 ++ l2, '#' ∉ s := by
  intro s hs
  rcases List.mem_append.mp hs with h | h
  · exact h1 s h
  · exact h2 s h

end MedAssure

namespace MedAssure

theorem sks_nodup_featAll (pid e ts : Str) (fx : FeatIn) (he : '#' ∉ e)
    (hwf : featWF fx) (hnd_uc : (fx.use_cases.map uidOf).Nodup)
    (hnd_tc : ∀ u ∈ fx.use_cases, (u.test_cases.map tidOf).Nodup) :
    ((featAll pid e ts fx).map Item.sk).Nodup := by
  have hfid : '#' ∉ fidOf fx := okId_hashfree hwf.1 _
  have hfE : ∀ s ∈ ["EPIC".data, e, "FEATURE".data, fidOf fx], '#' ∉ s :=
    hf_cons (by decide) (hf_cons he (hf_cons (by decide) (hf_cons hfid hf_nil)))
  simp only [featAll, List.map_cons]
  rw [List.nodup_cons]
  constructor
  · intro hmem
    obtain ⟨it, hit, hsk⟩ := List.mem_map.mp hmem
    obtain ⟨u, hu, hitu⟩ := mem_cmap.mp hit
    obtain ⟨rest, hrest, hsku⟩ := sk_mem_ucAll hitu (hwf.2 u hu)
    have huid : '#' ∉ uidOf u := okId_hashfree (hwf.2 u hu).1 _
    have h0 : interH (["EPIC".data, e, "FEATURE".data, fidOf fx, "UC".data,
        uidOf u] ++ rest) = interH ["EPIC".data, e, "FEATURE".data, fidOf fx] := by
      rw [← hsku, hsk]
      exact featSK_interH e (fidOf fx)
    have := interH_inj _
      (hf_app (hf_cons (by decide) (hf_cons he (hf_cons (by decide)
        (hf_cons hfid (hf_cons (by decide) (hf_cons huid hf_nil)))))) hrest)
      _ hfE (by simp) (by simp) h0
    simp at this
  · rw [map_cmap]
    apply cmap_nodup
    · intro u hu
      exact sks_nodup_ucAll pid e (fidOf fx) ts u he hfid (hwf.2 u hu) (hnd_tc u hu)
    · have hpw : fx.use_cases.Pairwise (fun u1 u2 => uidOf u1 ≠ uidOf u2) :=
        List.pairwise_map.mp hnd_uc
      refine List.Pairwise.imp_of_mem ?_ hpw
      intro u1 u2 hu1 hu2 hne x hx1 hx2
      obtain ⟨it1, hit1, rfl⟩ := List.mem_map.mp hx1
      obtain ⟨it2, hit2, hsk⟩ := List.mem_map.mp hx2
      obtain ⟨r1, hr1, hsk1⟩ := sk_mem_ucAll hit1 (hwf.2 u1 hu1)
      obtain ⟨r2, hr2, hsk2⟩ := sk_mem_ucAll hit2 (hwf.2 u2 hu2)
      have hu1f : '#' ∉ uidOf u1 := okId_hashfree (hwf.2 u1 hu1).1 _
      have hu2f : '#' ∉ uidOf u2 := okId_hashfree (hwf.2 u2 hu2).1 _
      have h0 : interH (["EPIC".data, e, "FEATURE".data, fidOf fx, "UC".data,
          uidOf u1] ++ r1) = interH (["EPIC".data, e, "FEATURE".data, fidOf fx,
          "UC".data, uidOf u2] ++ r2) := by
        rw [← hsk1, ← hsk2, hsk]
      have := interH_inj _
        (hf_app (hf_cons (by decide) (hf_cons he (hf_cons (by decide)
          (hf_cons hfid (hf_cons (by decide) (hf_cons hu1f hf_nil)))))) hr1)
        _
        (hf_app (hf_cons (by decide) (hf_cons he (hf_cons (by decide)
          (hf_cons hfid (hf_cons (by decide) (hf_cons hu2f hf_nil)))))) hr2)
        (by simp) (by simp) h0
      simp only [List.cons_append, List.nil_append, List.cons.injEq] at this
      exact hne this.2.2.2.2.2.1

end MedAssure

namespace MedAssure

theorem sks_nodup_epicAll (pid ts : Str) (ex : EpicIn) (hwf : epicWF ex)
    (hnd_f : (ex.features.map fidOf).Nodup)
    (hnd_uc : ∀ f ∈ ex.features, (f.use_cases.map uidOf).Nodup)
    (hnd_tc : ∀ f ∈ ex.features, ∀ u ∈ f.use_cases,
      (u.test_cases.map tidOf).Nodup) :
    ((epicAll pid ts ex).map Item.sk).Nodup := by
  have heid : '#' ∉ eidOf ex := okId_hashfree hwf.1 _
  simp only [epicAll, List.map_cons]
  rw [List.nodup_cons]
  constructor
  · intro hmem
    obtain ⟨it, hit, hsk⟩ := List.mem_map.mp hmem
    obtain ⟨f, hf, hitf⟩ := mem_cmap.mp hit
    obtain ⟨rest, hrest, hskf⟩ := sk_mem_featAll hitf (hwf.2 f hf)
    have hfid : '#' ∉ fidOf f := okId_hashfree (hwf.2 f hf).1 _
    have h0 : interH (["EPIC".data, eidOf ex, "FEATURE".data, fidOf f] ++ rest) =
        interH ["EPIC".data, eidOf ex] := by
      rw [← hskf, hsk]
      exact epicSK_interH (eidOf ex)
    have := interH_inj _
      (hf_app (hf_cons (by decide) (hf_cons heid (hf_cons (by decide)
        (hf_cons hfid hf_nil)))) hrest)
      _ (hf_cons (by decide) (hf_cons heid hf_nil)) (by simp) (by simp) h0
    simp at this
  · rw [map_cmap]
    apply cmap_nodup
    · intro f hf
      exact sks_nodup_featAll pid (eidOf ex) ts f heid (hwf.2 f hf)
        (hnd_uc f hf) (hnd_tc f hf)
    · have hpw : ex.features.Pairwise (fun f1 f2 => fidOf f1 ≠ fidOf f2) :=
        List.pairwise_map.mp hnd_f
      refine List.Pairwise.imp_of_mem ?_ hpw
      intro f1 f2 hf1 hf2 hne x hx1 hx2
      obtain ⟨it1, hit1, rfl⟩ := List.mem_map.mp hx1
      obtain ⟨it2, hit2, hsk⟩ := List.mem_map.mp hx2
      obtain ⟨r1, hr1, hsk1⟩ := sk_mem_featAll hit1 (hwf.2 f1 hf1)
      obtain ⟨r2, hr2, hsk2⟩ := sk_mem_featAll hit2 (hwf.2 f2 hf2)
      have hf1f : '#' ∉ fidOf f1 := okId_hashfree (hwf.2 f1 hf1).1 _
      have hf2f : '#' ∉ fidOf f2 := okId_hashfree (hwf.2 f2 hf2).1 _
      have h0 : interH (["EPIC".data, eidOf ex, "FEATURE".data, fidOf f1] ++ r1) =
          interH (["EPIC".data, eidOf ex, "FEATURE".data, fidOf f2] ++ r2) := by
        rw [← hsk1, ← hsk2, hsk]
      have := interH_inj _
        (hf_app (hf_cons (by decide) (hf_cons heid (hf_cons (by decide)
          (hf_cons hf1f hf_nil)))) hr1)
        _
        (hf_app (hf_cons (by decide) (hf_cons heid (hf_cons (by decide)
          (hf_cons hf2f hf_nil)))) hr2)
        (by simp) (by simp) h0
      simp only [List.cons_append, List.nil_append, List.cons.injEq] at this
      exact hne this.2.2.2.1

theorem sks_nodup_storeItems (pid pname sid ts : Str) (meta : MetaIn)
    (epics : List EpicIn) (hwf : ∀ e ∈ epics, epicWF e)
    (hnd_e : (epics.map eidOf).Nodup)
    (hnd_f : ∀ e ∈ epics, (e.features.map fidOf).Nodup)
    (hnd_uc : ∀ e ∈ epics, ∀ f ∈ e.features, (f.use_cases.map uidOf).Nodup)
    (hnd_tc : ∀ e ∈ epics, ∀ f ∈ e.features, ∀ u ∈ f.use_cases,
      (u.test_cases.map tidOf).Nodup) :
    ((storeItems pid pname sid ts meta epics).map Item.sk).Nodup := by
  simp only [storeItems, List.map_cons]
  rw [List.nodup_cons]
  constructor
  · intro hmem
    obtain ⟨it, hit, hsk⟩ := List.mem_map.mp hmem
    obtain ⟨e, he, hite⟩ := mem_cmap.mp hit
    obtain ⟨rest, hrest, hske⟩ := sk_mem_epicAll hite (hwf e he)
    have : (metaItem pid pname sid ts meta (countArtifacts epics)).sk =
        "EPIC#".data ++ interH (eidOf e :: rest) := by
      rw [← hsk, hske]
      rfl
    exact epic_sk_ne_meta _ this.symm
  · rw [map_cmap]
    apply cmap_nodup
    · intro e he
      exact sks_nodup_epicAll pid ts e (hwf e he) (hnd_f e he)
        (hnd_uc e he) (hnd_tc e he)
    · have hpw : epics.Pairwise (fun e1 e2 => eidOf e1 ≠ eidOf e2) :=
        List.pairwise_map.mp hnd_e
      refine List.Pairwise.imp_of_mem ?_ hpw
      intro e1 e2 he1 he2 hne x hx1 hx2
      obtain ⟨it1, hit1, rfl⟩ := List.mem_map.mp hx1
      obtain ⟨it2, hit2, hsk⟩ := List.mem_map.mp hx2
      obtain ⟨r1, hr1, hsk1⟩ := sk_mem_epicAll hit1 (hwf e1 he1)
      obtain ⟨r2, hr2, hsk2⟩ := sk_mem_epicAll hit2 (hwf e2 he2)
      have he1f : '#' ∉ eidOf e1 := okId_hashfree (hwf e1 he1).1 _
      have he2f : '#' ∉ eidOf e2 := okId_hashfree (hwf e2 he2).1 _
      have h0 : interH (["EPIC".data, eidOf e1] ++ r1) =
          interH (["EPIC".data, eidOf e2] ++ r2) := by
        rw [← hsk1, ← hsk2, hsk]
      have := interH_inj _
        (hf_app (hf_cons (by decide) (hf_cons he1f hf_nil)) hr1)
        _
        (hf_app (hf_cons (by decide) (hf_cons he2f hf_nil)) hr2)
        (by simp) (by simp) h0
      simp only [List.cons_append, List.nil_append, List.cons.injEq] at this
      exact hne this.2.1

end MedAssure

namespace MedAssure

theorem putItem_fresh (st : List Item) (a : Item)
    (h : ∀ x ∈ st, x.sk ≠ a.sk) : putItem st a = st ++ [a] := by
  induction st with
  | nil => rfl
  | cons x rest ih =>
    have hx : ¬ (x.pk = a.pk ∧ x.sk = a.sk) :=
      fun hc => h x (List.mem_cons_self _ _) hc.2
    simp only [putItem, if_neg hx, List.cons_append]
    rw [ih (fun y hy => h y (List.mem_cons_of_mem x hy))]

theorem runPuts_fresh (its : List Item) :
    ∀ st, (∀ it ∈ its, ∀ x ∈ st, x.sk ≠ it.sk) → (its.map Item.sk).Nodup →
      runPuts st its = st ++ its := by
  induction its with
  | nil => intro st _ _; simp [runPuts]
  | cons a rest ih =>
    intro st hdisj hnd
    rw [runPuts_cons_eq, putItem_fresh st a
      (fun x hx => (hdisj a (List.mem_cons_self _ _) x hx))]
    rw [List.map_cons, List.nodup_cons] at hnd
    rw [ih (st ++ [a]) ?_ hnd.2]
    · simp
    · intro it hit x hx
      rcases List.mem_append.mp hx with hx' | hx'
      · exact hdisj it (List.mem_cons_of_mem a hit) x hx'
      · rcases List.mem_singleton.mp hx' with rfl
        intro heq
        exact hnd.1 (heq ▸ List.mem_map_of_mem Item.sk hit)

theorem storeItems_pk (pid pname sid ts : Str) (meta : MetaIn)
    (epics : List EpicIn) :
    ∀ it ∈ storeItems pid pname sid ts meta epics, it.pk = projectPK pid := by
  intro it hit
  rcases List.mem_cons.mp hit with rfl | hm
  · rfl
  · obtain ⟨e, he, hite⟩ := mem_cmap.mp hm
    rcases List.mem_cons.mp hite with rfl | hmf
    · rfl
    · obtain ⟨f, hf, hitf⟩ := mem_cmap.mp hmf
      rcases List.mem_cons.mp hitf with rfl | hmu
      · rfl
      · obtain ⟨u, hu, hitu⟩ := mem_cmap.mp hmu
        rcases List.mem_cons.mp hitu with rfl | hmt
        · rfl
        · obtain ⟨t, ht, rfl⟩ := List.mem_map.mp hmt
          rfl

theorem query_runPuts_storeItems (pid pname sid ts : Str) (meta : MetaIn)
    (epics : List EpicIn)
    (hnd : ((storeItems pid pname sid ts meta epics).map Item.sk).Nodup) :
    queryProject pid (runPuts [] (storeItems pid pname sid ts meta epics)) =
      storeItems pid pname sid ts meta epics := by
  rw [runPuts_fresh _ [] (by intro it _ x hx; cases hx) hnd, List.nil_append,
    queryProject, List.filter_eq_self]
  intro it hit
  simpa using storeItems_pk pid pname sid ts meta epics it hit

end MedAssure

namespace MedAssure

theorem ainsert_append_of_none {κ α : Type} [DecidableEq κ] (m : List (κ × α))
    (k : κ) (v : α) (h : alookup m k = none) : ainsert m k v = m ++ [(k, v)] := by
  induction m with
  | nil => rfl
  | cons kv rest ih =>
    by_cases hk : k = kv.1
    · simp [alookup, hk] at h
    · simp only [alookup, if_neg hk] at h
      simp [ainsert, hk, ih h]

theorem combineB_cons (o : Option (List Fields)) (v : Fields) (l : List Fields) :
    combineB o (v :: l) = combineB (some (o.getD [] ++ [v])) l := by
  cases o <;> cases l <;> simp [combineB]

theorem pushBucket_lookup_self (m : List (Str × List Fields)) (k : Str) (v : Fields) :
    alookup (pushBucket m k v) k = some ((alookup m k).getD [] ++ [v]) := by
  simp [pushBucket, alookup_ainsert_self]

theorem pushBucket_lookup_ne (m : List (Str × List Fields)) (k k' : Str) (v : Fields)
    (h : k' ≠ k) : alookup (pushBucket m k v) k' = alookup m k' := by
  simp [pushBucket, alookup_ainsert_ne _ _ _ _ h]

theorem foldl_rstep_epicsM (its : List Item) :
    ∀ m, ((its.filterMap epicE).map Prod.fst).Nodup →
      (∀ k ∈ (its.filterMap epicE).map Prod.fst, alookup m.epicsM k = none) →
      (List.foldl rstep m its).epicsM = m.epicsM ++ its.filterMap epicE := by
  induction its with
  | nil => intro m _ _; simp
  | cons it rest ih =>
    intro m hnd hfresh
    rw [List.foldl_cons]
    cases hcl : rclass it.sk with
    | epic =>
      have hE : epicE it = some (getStr it.fields "epic_id".data, it.fields) := by
        simp [epicE, hcl]
      rw [List.filterMap_cons_some hE] at hnd hfresh ⊢
      rw [List.map_cons, List.nodup_cons] at hnd
      have hfr0 : alookup m.epicsM (getStr it.fields "epic_id".data) = none :=
        hfresh (getStr it.fields "epic_id".data)
          (by rw [List.map_cons]; exact List.mem_cons_self _ _)
      have hstep : (rstep m it).epicsM =
          m.epicsM ++ [(getStr it.fields "epic_id".data, it.fields)] := by
        simp only [rstep, hcl]
        exact ainsert_append_of_none _ _ _ hfr0
      rw [ih (rstep m it) hnd.2 ?_, hstep, List.append_assoc, List.singleton_append]
      intro k hk
      rw [hstep, alookup_chunk_append]
      have h1 : alookup m.epicsM k = none := hfresh k (by simp [hk])
      have h2 : k ≠ getStr it.fields "epic_id".data := fun he => hnd.1 (he ▸ hk)
      simp [h1, alookup, h2]
    | meta =>
      have hE : epicE it = none := by simp [epicE, hcl]
      have hstep : (rstep m it).epicsM = m.epicsM := by simp [rstep, hcl]
      rw [List.filterMap_cons_none hE] at hnd hfresh ⊢
      rw [ih (rstep m it) hnd (by rw [hstep]; exact hfresh), hstep]
    | feat =>
      have hE : epicE it = none := by simp [epicE, hcl]
      have hstep : (rstep m it).epicsM = m.epicsM := by simp [rstep, hcl]
      rw [List.filterMap_cons_none hE] at hnd hfresh ⊢
      rw [ih (rstep m it) hnd (by rw [hstep]; exact hfresh), hstep]
    | uc =>
      have hE : epicE it = none := by simp [epicE, hcl]
      have hstep : (rstep m it).epicsM = m.epicsM := by simp [rstep, hcl]
      rw [List.filterMap_cons_none hE] at hnd hfresh ⊢
      rw [ih (rstep m it) hnd (by rw [hstep]; exact hfresh), hstep]
    | tc =>
      have hE : epicE it = none := by simp [epicE, hcl]
      have hstep : (rstep m it).epicsM = m.epicsM := by simp [rstep, hcl]
      rw [List.filterMap_cons_none hE] at hnd hfresh ⊢
      rw [ih (rstep m it) hnd (by rw [hstep]; exact hfresh), hstep]
    | other =>
      have hE : epicE it = none := by simp [epicE, hcl]
      have hstep : (rstep m it).epicsM = m.epicsM := by simp [rstep, hcl]
      rw [List.filterMap_cons_none hE] at hnd hfresh ⊢
      rw [ih (rstep m it) hnd (by rw [hstep]; exact hfresh), hstep]

theorem foldl_rstep_featsM (its : List Item) :
    ∀ m, ((its.filterMap featE).map Prod.fst).Nodup →
      (∀ k ∈ (its.filterMap featE).map Prod.fst, alookup m.featsM k = none) →
      (List.foldl rstep m its).featsM = m.featsM ++ its.filterMap featE := by
  induction its with
  | nil => intro m _ _; simp
  | cons it rest ih =>
    intro m hnd hfresh
    rw [List.foldl_cons]
    cases hcl : rclass it.sk with
    | feat =>
      have hE : featE it = some (getStr it.fields "feature_id".data,
          (it.fields, getStr it.fields "epic_id".data)) := by
        simp [featE, hcl]
      rw [List.filterMap_cons_some hE] at hnd hfresh ⊢
      rw [List.map_cons, List.nodup_cons] at hnd
      have hfr0 : alookup m.featsM (getStr it.fields "feature_id".data) = none :=
        hfresh (getStr it.fields "feature_id".data)
          (by rw [List.map_cons]; exact List.mem_cons_self _ _)
      have hstep : (rstep m it).featsM =
          m.featsM ++ [(getStr it.fields "feature_id".data,
            (it.fields, getStr it.fields "epic_id".data))] := by
        simp only [rstep, hcl]
        exact ainsert_append_of_none _ _ _ hfr0
      rw [ih (rstep m it) hnd.2 ?_, hstep, List.append_assoc, List.singleton_append]
      intro k hk
      rw [hstep, alookup_chunk_append]
      have h1 : alookup m.featsM k = none := hfresh k (by simp [hk])
      have h2 : k ≠ getStr it.fields "feature_id".data := fun he => hnd.1 (he ▸ hk)
      simp [h1, alookup, h2]
    | meta =>
      have hE : featE it = none := by simp [featE, hcl]
      have hstep : (rstep m it).featsM = m.featsM := by simp [rstep, hcl]
      rw [List.filterMap_cons_none hE] at hnd hfresh ⊢
      rw [ih (rstep m it) hnd (by rw [hstep]; exact hfresh), hstep]
    | epic =>
      have hE : featE it = none := by simp [featE, hcl]
      have hstep : (rstep m it).featsM = m.featsM := by simp [rstep, hcl]
      rw [List.filterMap_cons_none hE] at hnd hfresh ⊢
      rw [ih (rstep m it) hnd (by rw [hstep]; exact hfresh), hstep]
    | uc =>
      have hE : featE it = none := by simp [featE, hcl]
      have hstep : (rstep m it).featsM = m.featsM := by simp [rstep, hcl]
      rw [List.filterMap_cons_none hE] at hnd hfresh ⊢
      rw [ih (rstep m it) hnd (by rw [hstep]; exact hfresh), hstep]
    | tc =>
      have hE : featE it = none := by simp [featE, hcl]
      have hstep : (rstep m it).featsM = m.featsM := by simp [rstep, hcl]
      rw [List.filterMap_cons_none hE] at hnd hfresh ⊢
      rw [ih (rstep m it) hnd (by rw [hstep]; exact hfresh), hstep]
    | other =>
      have hE : featE it = none := by simp [featE, hcl]
      have hstep : (rstep m it).featsM = m.featsM := by simp [rstep, hcl]
      rw [List.filterMap_cons_none hE] at hnd hfresh ⊢
      rw [ih (rstep m it) hnd (by rw [hstep]; exact hfresh), hstep]


theorem foldl_rstep_ucsM (its : List Item) :
    ∀ m, ((its.filterMap ucE).map Prod.fst).Nodup →
      (∀ k ∈ (its.filterMap ucE).map Prod.fst, alookup m.ucsM k = none) →
      (List.foldl rstep m its).ucsM = m.ucsM ++ its.filterMap ucE := by
  induction its with
  | nil => intro m _ _; simp
  | cons it rest ih =>
    intro m hnd hfresh
    rw [List.foldl_cons]
    cases hcl : rclass it.sk with
    | uc =>
      have hE : ucE it = some (getStr it.fields "use_case_id".data,
          (it.fields, getStr it.fields "feature_id".data)) := by
        simp [ucE, hcl]
      rw [List.filterMap_cons_some hE] at hnd hfresh ⊢
      rw [List.map_cons, List.nodup_cons] at hnd
      have hfr0 : alookup m.ucsM (getStr it.fields "use_case_id".data) = none :=
        hfresh (getStr it.fields "use_case_id".data)
          (by rw [List.map_cons]; exact List.mem_cons_self _ _)
      have hstep : (rstep m it).ucsM =
          m.ucsM ++ [(getStr it.fields "use_case_id".data,
            (it.fields, getStr it.fields "feature_id".data))] := by
        simp only [rstep, hcl]
        exact ainsert_append_of_none _ _ _ hfr0
      rw [ih (rstep m it) hnd.2 ?_, hstep, List.append_assoc, List.singleton_append]
      intro k hk
      rw [hstep, alookup_chunk_append]
      have h1 : alookup m.ucsM k = none := hfresh k (by simp [hk])
      have h2 : k ≠ getStr it.fields "use_case_id".data := fun he => hnd.1 (he ▸ hk)
      simp [h1, alookup, h2]
    | meta =>
      have hE : ucE it = none := by simp [ucE, hcl]
      have hstep : (rstep m it).ucsM = m.ucsM := by simp [rstep, hcl]
      rw [List.filterMap_cons_none hE] at hnd hfresh ⊢
      rw [ih (rstep m it) hnd (by rw [hstep]; exact hfresh), hstep]
    | feat =>
      have hE : ucE it = none := by simp [ucE, hcl]
      have hstep : (rstep m it).ucsM = m.ucsM := by simp [rstep, hcl]
      rw [List.filterMap_cons_none hE] at hnd hfresh ⊢
      rw [ih (rstep m it) hnd (by rw [hstep]; exact hfresh), hstep]
    | epic =>
      have hE : ucE it = none := by simp [ucE, hcl]
      have hstep : (rstep m it).ucsM = m.ucsM := by simp [rstep, hcl]
      rw [List.filterMap_cons_none hE] at hnd hfresh ⊢
      rw [ih (rstep m it) hnd (by rw [hstep]; exact hfresh), hstep]
    | tc =>
      have hE : ucE it = none := by simp [ucE, hcl]
      have hstep : (rstep m it).ucsM = m.ucsM := by simp [rstep, hcl]
      rw [List.filterMap_cons_none hE] at hnd hfresh ⊢
      rw [ih (rstep m it) hnd (by rw [hstep]; exact hfresh), hstep]
    | other =>
      have hE : ucE it = none := by simp [ucE, hcl]
      have hstep : (rstep m it).ucsM = m.ucsM := by simp [rstep, hcl]
      rw [List.filterMap_cons_none hE] at hnd hfresh ⊢
      rw [ih (rstep m it) hnd (by rw [hstep]; exact hfresh), hstep]

end MedAssure

namespace MedAssure

theorem foldl_rstep_tcsM (its : List Item) :
    ∀ (m : RMaps) (uid : Str),
      alookup (List.foldl rstep m its).tcsM uid =
        combineB (alookup m.tcsM uid) (its.filterMap (tcE uid)) := by
  induction its with
  | nil =>
    intro m uid
    cases h : alookup m.tcsM uid <;> simp [combineB, h]
  | cons it rest ih =>
    intro m uid
    rw [List.foldl_cons]
    cases hcl : rclass it.sk with
    | tc =>
      by_cases hk : getStr it.fields "use_case_id".data = uid
      · have hE : tcE uid it = some it.fields := by simp [tcE, hcl, hk]
        rw [List.filterMap_cons_some hE, ih, combineB_cons]
        have hstep : (rstep m it).tcsM =
            pushBucket m.tcsM (getStr it.fields "use_case_id".data) it.fields := by
          simp [rstep, hcl]
        rw [hstep, hk, pushBucket_lookup_self]
      · have hE : tcE uid it = none := by simp [tcE, hcl, hk]
        rw [List.filterMap_cons_none hE, ih]
        have hstep : (rstep m it).tcsM =
            pushBucket m.tcsM (getStr it.fields "use_case_id".data) it.fields := by
          simp [rstep, hcl]
        rw [hstep, pushBucket_lookup_ne _ _ _ _ (fun h => hk h.symm)]
    | meta =>
      have hE : tcE uid it = none := by simp [tcE, hcl]
      have hstep : (rstep m it).tcsM = m.tcsM := by simp [rstep, hcl]
      rw [List.filterMap_cons_none hE, ih, hstep]
    | epic =>
      have hE : tcE uid it = none := by simp [tcE, hcl]
      have hstep : (rstep m it).tcsM = m.tcsM := by simp [rstep, hcl]
      rw [List.filterMap_cons_none hE, ih, hstep]
    | feat =>
      have hE : tcE uid it = none := by simp [tcE, hcl]
      have hstep : (rstep m it).tcsM = m.tcsM := by simp [rstep, hcl]
      rw [List.filterMap_cons_none hE, ih, hstep]
    | uc =>
      have hE : tcE uid it = none := by simp [tcE, hcl]
      have hstep : (rstep m it).tcsM = m.tcsM := by simp [rstep, hcl]
      rw [List.filterMap_cons_none hE, ih, hstep]
    | other =>
      have hE : tcE uid it = none := by simp [tcE, hcl]
      have hstep : (rstep m it).tcsM = m.tcsM := by simp [rstep, hcl]
      rw [List.filterMap_cons_none hE, ih, hstep]

end MedAssure

namespace MedAssure

theorem epicE_of_rclass {it : Item} (h : rclass it.sk = RClass.epic) :
    epicE it = some (getStr it.fields "epic_id".data, it.fields) := by
  simp [epicE, h]

theorem epicE_of_ne {it : Item} (h : rclass it.sk ≠ RClass.epic) : epicE it = none := by
  cases hc : rclass it.sk <;> try exact absurd hc h
  all_goals simp [epicE, hc]

theorem featE_of_rclass {it : Item} (h : rclass it.sk = RClass.feat) :
    featE it = some (getStr it.fields "feature_id".data,
      (it.fields, getStr it.fields "epic_id".data)) := by
  simp [featE, h]

theorem featE_of_ne {it : Item} (h : rclass it.sk ≠ RClass.feat) : featE it = none := by
  cases hc : rclass it.sk <;> try exact absurd hc h
  all_goals simp [featE, hc]

theorem ucE_of_rclass {it : Item} (h : rclass it.sk = RClass.uc) :
    ucE it = some (getStr it.fields "use_case_id".data,
      (it.fields, getStr it.fields "feature_id".data)) := by
  simp [ucE, h]

theorem ucE_of_ne {it : Item} (h : rclass it.sk ≠ RClass.uc) : ucE it = none := by
  cases hc : rclass it.sk <;> try exact absurd hc h
  all_goals simp [ucE, hc]

theorem tcE_of_rclass {uid : Str} {it : Item} (h : rclass it.sk = RClass.tc) :
    tcE uid it = if getStr it.fields "use_case_id".data = uid then some it.fields
      else none := by
  simp [tcE, h]

theorem tcE_of_ne {uid : Str} {it : Item} (h : rclass it.sk ≠ RClass.tc) :
    tcE uid it = none := by
  cases hc : rclass it.sk <;> try exact absurd hc h
  all_goals simp [tcE, hc]

theorem rclass_metaItem (pid pname sid ts : Str) (meta : MetaIn) (cs : Counts) :
    rclass (metaItem pid pname sid ts meta cs).sk = RClass.meta := rclass_metaSK

theorem rclass_epicItem (pid ts : Str) (e : EpicIn) (h : '#' ∉ eidOf e) :
    rclass (epicItem pid ts e).sk = RClass.epic := rclass_epicSK _ h

theorem rclass_featItem (pid eid ts : Str) (f : FeatIn) (he : '#' ∉ eid)
    (hf : '#' ∉ fidOf f) (hne : eid ≠ "UC".data) :
    rclass (featItem pid eid ts f).sk = RClass.feat := rclass_featSK _ _ he hf hne

theorem rclass_ucItem (pid eid fid ts : Str) (u : UcIn) (he : '#' ∉ eid)
    (hf : '#' ∉ fid) (hu : '#' ∉ uidOf u) (hne : eid ≠ "TC".data)
    (hnf : fid ≠ "TC".data) :
    rclass (ucItem pid eid fid ts u).sk = RClass.uc :=
  rclass_ucSK _ _ _ he hf hu hne hnf

theorem rclass_tcItem (pid eid fid uid ts : Str) (t : TcIn) :
    rclass (tcItem pid eid fid uid ts t).sk = RClass.tc := rclass_tcSK _ _ _ _

theorem getStr_epicItem_eid (pid ts : Str) (e : EpicIn) :
    getStr (epicItem pid ts e).fields "epic_id".data = eidOf e := by
  simp [epicItem, getStr, alookup]

theorem getStr_featItem_fid (pid eid ts : Str) (f : FeatIn) :
    getStr (featItem pid eid ts f).fields "feature_id".data = fidOf f := by
  simp [featItem, getStr, alookup]

theorem getStr_featItem_eid (pid eid ts : Str) (f : FeatIn) :
    getStr (featItem pid eid ts f).fields "epic_id".data = eid := by
  simp [featItem, getStr, alookup]

theorem getStr_ucItem_uid (pid eid fid ts : Str) (u : UcIn) :
    getStr (ucItem pid eid fid ts u).fields "use_case_id".data = uidOf u := by
  simp [ucItem, getStr, alookup]

theorem getStr_ucItem_fid (pid eid fid ts : Str) (u : UcIn) :
    getStr (ucItem pid eid fid ts u).fields "feature_id".data = fid := by
  simp [ucItem, getStr, alookup]

theorem getStr_tcItem_uid (pid eid fid uid ts : Str) (t : TcIn) :
    getStr (tcItem pid eid fid uid ts t).fields "use_case_id".data = uid := by
  simp [tcItem, getStr, alookup]

theorem filterMap_cmap {α β γ : Type} (f : α → List β) (g : β → Option γ)
    (l : List α) :
    (cmap f l).filterMap g = cmap (fun a => (f a).filterMap g) l := by
  induction l with
  | nil => rfl
  | cons a rest ih => simp [cmap, List.filterMap_append, ih]

theorem cmap_congr_single {α β : Type} {F : α → List β} {G : α → β} {l : List α}
    (h : ∀ a ∈ l, F a = [G a]) : cmap F l = l.map G := by
  induction l with
  | nil => rfl
  | cons a rest ih =>
    rw [cmap, h a (List.mem_cons_self _ _), List.map_cons, List.singleton_append,
      ih (fun x hx => h x (List.mem_cons_of_mem a hx))]

theorem cmap_congr_nil {α β : Type} {F : α → List β} {l : List α}
    (h : ∀ a ∈ l, F a = []) : cmap F l = [] := by
  induction l with
  | nil => rfl
  | cons a rest ih =>
    rw [cmap, h a (List.mem_cons_self _ _), List.nil_append,
      ih (fun x hx => h x (List.mem_cons_of_mem a hx))]

end MedAssure

namespace MedAssure

theorem mem_featAll_cases {pid eid ts : Str} {fx : FeatIn} {it : Item}
    (h : it ∈ featAll pid eid ts fx) :
    it = featItem pid eid ts fx ∨
      ∃ u ∈ fx.use_cases, it ∈ ucAll pid eid (fidOf fx) ts u := by
  rcases List.mem_cons.mp h with rfl | hm
  · exact Or.inl rfl
  · exact Or.inr (mem_cmap.mp hm)

theorem mem_ucAll_cases {pid eid fid ts : Str} {u : UcIn} {it : Item}
    (h : it ∈ ucAll pid eid fid ts u) :
    it = ucItem pid eid fid ts u ∨
      ∃ t ∈ u.test_cases, it = tcItem pid eid fid (uidOf u) ts t := by
  rcases List.mem_cons.mp h with rfl | hm
  · exact Or.inl rfl
  · obtain ⟨t, ht, rfl⟩ := List.mem_map.mp hm
    exact Or.inr ⟨t, ht, rfl⟩

theorem mem_epicAll_cases {pid ts : Str} {ex : EpicIn} {it : Item}
    (h : it ∈ epicAll pid ts ex) :
    it = epicItem pid ts ex ∨
      ∃ f ∈ ex.features, it ∈ featAll pid (eidOf ex) ts f := by
  rcases List.mem_cons.mp h with rfl | hm
  · exact Or.inl rfl
  · exact Or.inr (mem_cmap.mp hm)

theorem mem_allFeats {epics : List EpicIn} {e : EpicIn} {f : FeatIn}
    (he : e ∈ epics) (hf : f ∈ e.features) : f ∈ allFeats epics :=
  mem_cmap.mpr ⟨e, he, hf⟩

theorem rclass_of_mem_featAll {pid eid ts : Str} {fx : FeatIn} {it : Item}
    (h : it ∈ featAll pid eid ts fx)
    (he : '#' ∉ eid) (hwf : featWF fx) (hnuc : eid ≠ "UC".data)
    (hntc : eid ≠ "TC".data) (hfntc : fidOf fx ≠ "TC".data) :
    rclass it.sk = RClass.feat ∨ rclass it.sk = RClass.uc ∨
      rclass it.sk = RClass.tc := by
  rcases mem_featAll_cases h with rfl | ⟨u, hu, hit⟩
  · exact Or.inl (rclass_featItem _ _ _ _ he (okId_hashfree hwf.1 _) hnuc)
  · rcases mem_ucAll_cases hit with rfl | ⟨t, ht, rfl⟩
    · exact Or.inr (Or.inl (rclass_ucItem _ _ _ _ _ he (okId_hashfree hwf.1 _)
        (okId_hashfree (hwf.2 u hu).1 _) hntc hfntc))
    · exact Or.inr (Or.inr (rclass_tcItem _ _ _ _ _ _))

theorem filterMap_epicE (pid pname sid ts : Str) (meta : MetaIn)
    (epics : List EpicIn) (hwf : ∀ e ∈ epics, epicWF e)
    (hres : noReservedIds epics) :
    (storeItems pid pname sid ts meta epics).filterMap epicE =
      epics.map (fun e => (eidOf e, (epicItem pid ts e).fields)) := by
  have hm : epicE (metaItem pid pname sid ts meta (countArtifacts epics)) = none := by
    apply epicE_of_ne
    rw [rclass_metaItem]
    exact fun hx => absurd hx (by decide)
  rw [storeItems, List.filterMap_cons_none hm, filterMap_cmap]
  apply cmap_congr_single
  intro e he
  have heid : '#' ∉ eidOf e := okId_hashfree (hwf e he).1 _
  have hsome : epicE (epicItem pid ts e) =
      some (eidOf e, (epicItem pid ts e).fields) := by
    rw [epicE_of_rclass (rclass_epicItem pid ts e heid), getStr_epicItem_eid]
  rw [epicAll, List.filterMap_cons_some hsome]
  have hnil : (cmap (featAll pid (eidOf e) ts) e.features).filterMap epicE = [] := by
    rw [filterMap_cmap]
    apply cmap_congr_nil
    intro f hf
    apply List.filterMap_eq_nil_iff.mpr
    intro it hit
    apply epicE_of_ne
    rcases rclass_of_mem_featAll hit heid ((hwf e he).2 f hf)
        ((hres.1 e he).1) ((hres.1 e he).2) (hres.2 f (mem_allFeats he hf)) with
      hc | hc | hc <;> (rw [hc]; exact fun hx => absurd hx (by decide))
  rw [hnil]

end MedAssure

namespace MedAssure


theorem cmap_congr {α β : Type} {F G : α → List β} {l : List α}
    (h : ∀ a ∈ l, F a = G a) : cmap F l = cmap G l := by
  induction l with
  | nil => rfl
  | cons a rest ih =>
    rw [cmap, cmap, h a (List.mem_cons_self _ _),
      ih (fun x hx => h x (List.mem_cons_of_mem a hx))]

theorem cmap_append {α β : Type} (g : α → List β) (l1 l2 : List α) :
    cmap g (l1 ++ l2) = cmap g l1 ++ cmap g l2 := by
  induction l1 with
  | nil => rfl
  | cons a rest ih => simp [cmap, ih]

theorem cmap_cmap {α β γ : Type} (g : β → List γ) (h : α → List β) (l : List α) :
    cmap (fun a => cmap g (h a)) l = cmap g (cmap h l) := by
  induction l with
  | nil => rfl
  | cons a rest ih => simp [cmap, cmap_append, ih]

theorem cmap_map {α β γ : Type} (g : β → List γ) (f : α → β) (l : List α) :
    cmap g (l.map f) = cmap (fun a => g (f a)) l := by
  induction l with
  | nil => rfl
  | cons a rest ih => simp [cmap, ih]

theorem cmap_if_eq_unique {α γ : Type} (key : α → Str) (payload : α → List γ)
    (l : List α) (a₀ : α) (ha : a₀ ∈ l) (hnd : (l.map key).Nodup) :
    cmap (fun a => if key a = key a₀ then payload a else []) l = payload a₀ := by
  induction l with
  | nil => cases ha
  | cons b rest ih =>
    rw [List.map_cons, List.nodup_cons] at hnd
    rcases List.mem_cons.mp ha with rfl | hmem
    · rw [cmap, if_pos rfl, cmap_congr_nil, List.append_nil]
      intro a hat
      rw [if_neg]
      intro hk
      exact hnd.1 (hk ▸ List.mem_map_of_mem key hat)
    · rw [cmap, if_neg, List.nil_append, ih hmem hnd.2]
      intro hk
      exact hnd.1 (hk ▸ List.mem_map_of_mem key hmem)

end MedAssure

namespace MedAssure

theorem filterMap_featE (pid pname sid ts : Str) (meta : MetaIn)
    (epics : List EpicIn) (hwf : ∀ e ∈ epics, epicWF e)
    (hres : noReservedIds epics) :
    (storeItems pid pname sid ts meta epics).filterMap featE =
      cmap (fun q => [(fidOf q.2, ((featItem pid q.1 ts q.2).fields, q.1))])
        (allFeatPaths epics) := by
  have hm : featE (metaItem pid pname sid ts meta (countArtifacts epics)) = none := by
    apply featE_of_ne
    rw [rclass_metaItem]
    exact fun hx => absurd hx (by decide)
  rw [storeItems, List.filterMap_cons_none hm, filterMap_cmap, allFeatPaths,
    ← cmap_cmap]
  apply cmap_congr
  intro e he
  have heid : '#' ∉ eidOf e := okId_hashfree (hwf e he).1 _
  have hnone : featE (epicItem pid ts e) = none := by
    apply featE_of_ne
    rw [rclass_epicItem pid ts e heid]
    exact fun hx => absurd hx (by decide)
  rw [epicAll, List.filterMap_cons_none hnone, filterMap_cmap, cmap_map]
  apply cmap_congr
  intro f hf
  have hfwf := (hwf e he).2 f hf
  have hfid : '#' ∉ fidOf f := okId_hashfree hfwf.1 _
  have hsome : featE (featItem pid (eidOf e) ts f) =
      some (fidOf f, ((featItem pid (eidOf e) ts f).fields, eidOf e)) := by
    rw [featE_of_rclass (rclass_featItem pid (eidOf e) ts f heid hfid
      ((hres.1 e he).1)), getStr_featItem_fid, getStr_featItem_eid]
  rw [featAll, List.filterMap_cons_some hsome]
  have hnil : (cmap (ucAll pid (eidOf e) (fidOf f) ts) f.use_cases).filterMap
      featE = [] := by
    rw [filterMap_cmap]
    apply cmap_congr_nil
    intro u hu
    apply List.filterMap_eq_nil_iff.mpr
    intro it hit
    apply featE_of_ne
    rcases mem_ucAll_cases hit with rfl | ⟨t, ht, rfl⟩
    · rw [rclass_ucItem pid (eidOf e) (fidOf f) ts u heid hfid
        (okId_hashfree (hfwf.2 u hu).1 _) ((hres.1 e he).2)
        (hres.2 f (mem_allFeats he hf))]
      exact fun hx => absurd hx (by decide)
    · rw [rclass_tcItem]
      exact fun hx => absurd hx (by decide)
  rw [hnil]

theorem filterMap_ucE (pid pname sid ts : Str) (meta : MetaIn)
    (epics : List EpicIn) (hwf : ∀ e ∈ epics, epicWF e)
    (hres : noReservedIds epics) :
    (storeItems pid pname sid ts meta epics).filterMap ucE =
      cmap (fun p => [(uidOf p.2.2, ((ucItem pid p.1 p.2.1 ts p.2.2).fields, p.2.1))])
        (allUcPaths epics) := by
  have hm : ucE (metaItem pid pname sid ts meta (countArtifacts epics)) = none := by
    apply ucE_of_ne
    rw [rclass_metaItem]
    exact fun hx => absurd hx (by decide)
  rw [storeItems, List.filterMap_cons_none hm, filterMap_cmap, allUcPaths,
    ← cmap_cmap]
  apply cmap_congr
  intro e he
  have heid : '#' ∉ eidOf e := okId_hashfree (hwf e he).1 _
  have hnone : ucE (epicItem pid ts e) = none := by
    apply ucE_of_ne
    rw [rclass_epicItem pid ts e heid]
    exact fun hx => absurd hx (by decide)
  rw [epicAll, List.filterMap_cons_none hnone, filterMap_cmap, ← cmap_cmap]
  apply cmap_congr
  intro f hf
  have hfwf := (hwf e he).2 f hf
  have hfid : '#' ∉ fidOf f := okId_hashfree hfwf.1 _
  have hnone2 : ucE (featItem pid (eidOf e) ts f) = none := by
    apply ucE_of_ne
    rw [rclass_featItem pid (eidOf e) ts f heid hfid ((hres.1 e he).1)]
    exact fun hx => absurd hx (by decide)
  rw [featAll, List.filterMap_cons_none hnone2, filterMap_cmap, cmap_map]
  apply cmap_congr
  intro u hu
  have huwf := hfwf.2 u hu
  have huid : '#' ∉ uidOf u := okId_hashfree huwf.1 _
  have hsome : ucE (ucItem pid (eidOf e) (fidOf f) ts u) =
      some (uidOf u, ((ucItem pid (eidOf e) (fidOf f) ts u).fields, fidOf f)) := by
    rw [ucE_of_rclass (rclass_ucItem pid (eidOf e) (fidOf f) ts u heid hfid huid
      ((hres.1 e he).2) (hres.2 f (mem_allFeats he hf))), getStr_ucItem_uid,
      getStr_ucItem_fid]
  rw [ucAll, List.filterMap_cons_some hsome]
  have hnil : (u.test_cases.map (tcItem pid (eidOf e) (fidOf f) (uidOf u) ts)).filterMap
      ucE = [] := by
    apply List.filterMap_eq_nil_iff.mpr
    intro it hit
    obtain ⟨t, ht, rfl⟩ := List.mem_map.mp hit
    apply ucE_of_ne
    rw [rclass_tcItem]
    exact fun hx => absurd hx (by decide)
  rw [hnil]

end MedAssure

namespace MedAssure

theorem filterMap_all_some {α γ : Type} (g : α → Option γ) (h : α → γ)
    (l : List α) (hg : ∀ a ∈ l, g a = some (h a)) : l.filterMap g = l.map h := by
  induction l with
  | nil => rfl
  | cons a rest ih =>
    rw [List.filterMap_cons_some (hg a (List.mem_cons_self _ _)), List.map_cons,
      ih (fun x hx => hg x (List.mem_cons_of_mem a hx))]

theorem filterMap_tcE (pid pname sid ts uid : Str) (meta : MetaIn)
    (epics : List EpicIn) (hwf : ∀ e ∈ epics, epicWF e)
    (hres : noReservedIds epics) :
    (storeItems pid pname sid ts meta epics).filterMap (tcE uid) =
      cmap (fun p => if uidOf p.2.2 = uid then
          p.2.2.test_cases.map
            (fun t => (tcItem pid p.1 p.2.1 (uidOf p.2.2) ts t).fields)
        else []) (allUcPaths epics) := by
  have hm : tcE uid (metaItem pid pname sid ts meta (countArtifacts epics)) = none := by
    apply tcE_of_ne
    rw [rclass_metaItem]
    exact fun hx => absurd hx (by decide)
  rw [storeItems, List.filterMap_cons_none hm, filterMap_cmap, allUcPaths,
    ← cmap_cmap]
  apply cmap_congr
  intro e he
  have heid : '#' ∉ eidOf e := okId_hashfree (hwf e he).1 _
  have hnone : tcE uid (epicItem pid ts e) = none := by
    apply tcE_of_ne
    rw [rclass_epicItem pid ts e heid]
    exact fun hx => absurd hx (by decide)
  rw [epicAll, List.filterMap_cons_none hnone, filterMap_cmap, ← cmap_cmap]
  apply cmap_congr
  intro f hf
  have hfwf := (hwf e he).2 f hf
  have hfid : '#' ∉ fidOf f := okId_hashfree hfwf.1 _
  have hnone2 : tcE uid (featItem pid (eidOf e) ts f) = none := by
    apply tcE_of_ne
    rw [rclass_featItem pid (eidOf e) ts f heid hfid ((hres.1 e he).1)]
    exact fun hx => absurd hx (by decide)
  rw [featAll, List.filterMap_cons_none hnone2, filterMap_cmap, cmap_map]
  apply cmap_congr
  intro u hu
  have huwf := hfwf.2 u hu
  have huid : '#' ∉ uidOf u := okId_hashfree huwf.1 _
  have hnone3 : tcE uid (ucItem pid (eidOf e) (fidOf f) ts u) = none := by
    apply tcE_of_ne
    rw [rclass_ucItem pid (eidOf e) (fidOf f) ts u heid hfid huid
      ((hres.1 e he).2) (hres.2 f (mem_allFeats he hf))]
    exact fun hx => absurd hx (by decide)
  rw [ucAll, List.filterMap_cons_none hnone3]
  by_cases hk : uidOf u = uid
  · rw [if_pos hk]
    have hall : ∀ it ∈ u.test_cases.map (tcItem pid (eidOf e) (fidOf f) (uidOf u) ts),
        tcE uid it = some it.fields := by
      intro it hit
      obtain ⟨t, ht, rfl⟩ := List.mem_map.mp hit
      rw [tcE_of_rclass (rclass_tcItem pid (eidOf e) (fidOf f) (uidOf u) ts t),
        getStr_tcItem_uid, if_pos hk]
    rw [filterMap_all_some (tcE uid) Item.fields _ hall, List.map_map]
    rfl
  · rw [if_neg hk]
    apply List.filterMap_eq_nil_iff.mpr
    intro it hit
    obtain ⟨t, ht, rfl⟩ := List.mem_map.mp hit
    rw [tcE_of_rclass (rclass_tcItem pid (eidOf e) (fidOf f) (uidOf u) ts t),
      getStr_tcItem_uid, if_neg hk]

theorem allFeatPaths_keys (epics : List EpicIn) :
    (allFeatPaths epics).map (fun q => fidOf q.2) = (allFeats epics).map fidOf := by
  induction epics with
  | nil => rfl
  | cons e rest ih =>
    rw [show allFeatPaths (e :: rest) =
        e.features.map (fun f => (eidOf e, f)) ++ allFeatPaths rest from rfl,
      show allFeats (e :: rest) = e.features ++ allFeats rest from rfl,
      List.map_append, List.map_append, List.map_map, ih]
    rfl

theorem allUcPaths_keys_inner (eidv : Str) (feats : List FeatIn) :
    (cmap (fun f => f.use_cases.map (fun u => (eidv, fidOf f, u))) feats).map
        (fun p => uidOf p.2.2) =
      (cmap (fun f => f.use_cases) feats).map uidOf := by
  induction feats with
  | nil => rfl
  | cons f rest ih =>
    rw [cmap, cmap, List.map_append, List.map_append, List.map_map, ih]
    rfl

theorem allUcPaths_keys (epics : List EpicIn) :
    (allUcPaths epics).map (fun p => uidOf p.2.2) = (allUcs epics).map uidOf := by
  induction epics with
  | nil => rfl
  | cons e rest ih =>
    rw [show allUcPaths (e :: rest) =
        cmap (fun f => f.use_cases.map (fun u => (eidOf e, fidOf f, u))) e.features
          ++ allUcPaths rest from rfl,
      show allUcs (e :: rest) =
        cmap (fun f => f.use_cases) e.features ++ allUcs rest from by
          simp only [allUcs, allFeats]
          rw [show cmap (fun e => e.features) (e :: rest) =
              e.features ++ cmap (fun e => e.features) rest from rfl, cmap_append],
      List.map_append, List.map_append, ih, allUcPaths_keys_inner]

theorem mem_allFeatPaths {epics : List EpicIn} {e : EpicIn} {f : FeatIn}
    (he : e ∈ epics) (hf : f ∈ e.features) : (eidOf e, f) ∈ allFeatPaths epics :=
  mem_cmap.mpr ⟨e, he, List.mem_map_of_mem _ hf⟩

theorem mem_allUcPaths {epics : List EpicIn} {e : EpicIn} {f : FeatIn} {u : UcIn}
    (he : e ∈ epics) (hf : f ∈ e.features) (hu : u ∈ f.use_cases) :
    (eidOf e, fidOf f, u) ∈ allUcPaths epics :=
  mem_cmap.mpr ⟨e, he, mem_cmap.mpr ⟨f, hf, List.mem_map_of_mem _ hu⟩⟩

theorem mem_allUcs {epics : List EpicIn} {e : EpicIn} {f : FeatIn} {u : UcIn}
    (he : e ∈ epics) (hf : f ∈ e.features) (hu : u ∈ f.use_cases) :
    u ∈ allUcs epics :=
  mem_cmap.mpr ⟨f, mem_allFeats he hf, hu⟩

end MedAssure

namespace MedAssure

theorem combineB_none_getD (l : List Fields) : (combineB none l).getD [] = l := by
  cases l <;> rfl

theorem filter_cmap {α β : Type} (F : α → List β) (p : β → Bool) (l : List α) :
    (cmap F l).filter p = cmap (fun a => (F a).filter p) l := by
  induction l with
  | nil => rfl
  | cons a rest ih => rw [cmap, cmap, List.filter_append, ih]

theorem cmap_sublist_of_mem {α β : Type} {F : α → List β} {l : List α} {a : α}
    (ha : a ∈ l) : List.Sublist (F a) (cmap F l) := by
  induction l with
  | nil => cases ha
  | cons b rest ih =>
    rcases List.mem_cons.mp ha with rfl | hm
    · exact List.sublist_append_left ..
    · exact (ih hm).trans (List.sublist_append_right ..)

theorem nodup_feats_of_global {epics : List EpicIn} {e : EpicIn}
    (hnd : ((allFeats epics).map fidOf).Nodup) (he : e ∈ epics) :
    (e.features.map fidOf).Nodup :=
  hnd.sublist ((cmap_sublist_of_mem he).map fidOf)

theorem nodup_ucs_of_global {epics : List EpicIn} {e : EpicIn} {f : FeatIn}
    (hnd : ((allUcs epics).map uidOf).Nodup) (he : e ∈ epics)
    (hf : f ∈ e.features) : (f.use_cases.map uidOf).Nodup :=
  hnd.sublist ((cmap_sublist_of_mem (mem_allFeats he hf)).map uidOf)

theorem nodup_tcs_of_global {epics : List EpicIn} {e : EpicIn} {f : FeatIn}
    {u : UcIn} (hnd : ((allTcs epics).map tidOf).Nodup) (he : e ∈ epics)
    (hf : f ∈ e.features) (hu : u ∈ f.use_cases) :
    (u.test_cases.map tidOf).Nodup :=
  hnd.sublist ((cmap_sublist_of_mem (mem_allUcs he hf hu)).map tidOf)

theorem cmap_filter_key {α β : Type} (key : α → Str) (tag : β → Str)
    (F : α → List β) (l : List α) (a₀ : α) (ha : a₀ ∈ l)
    (hnd : (l.map key).Nodup)
    (htag : ∀ a ∈ l, ∀ b ∈ F a, tag b = key a) :
    (cmap F l).filter (fun b => tag b = key a₀) = F a₀ := by
  have h2 : cmap (fun a => (F a).filter (fun b => tag b = key a₀)) l
      = cmap (fun a => if key a = key a₀ then F a else []) l := by
    apply cmap_congr
    intro a hal
    by_cases hk : key a = key a₀
    · rw [if_pos hk]
      apply List.filter_eq_self.mpr
      intro b hb
      simp only [decide_eq_true_eq]
      rw [htag a hal b hb, hk]
    · rw [if_neg hk]
      apply List.filter_eq_nil_iff.mpr
      intro b hb
      simp only [decide_eq_true_eq]
      rw [htag a hal b hb]
      exact hk
  rw [filter_cmap, h2, cmap_if_eq_unique key F l a₀ ha hnd]

theorem allUcPaths_eq (epics : List EpicIn) :
    allUcPaths epics =
      cmap (fun q => q.2.use_cases.map (fun u => (q.1, fidOf q.2, u)))
        (allFeatPaths epics) := by
  rw [allFeatPaths, ← cmap_cmap]
  show cmap _ epics = _
  apply cmap_congr
  intro e _
  rw [cmap_map]

theorem allFeatPaths_filter {epics : List EpicIn} {e : EpicIn} (he : e ∈ epics)
    (hnd : (epics.map eidOf).Nodup) :
    (allFeatPaths epics).filter (fun q => q.1 = eidOf e) =
      e.features.map (fun f => (eidOf e, f)) := by
  rw [allFeatPaths]
  exact cmap_filter_key eidOf (fun q : Str × FeatIn => q.1) _ epics e he hnd
    (fun a _ b hb => by obtain ⟨f, _, rfl⟩ := List.mem_map.mp hb; rfl)

theorem allUcPaths_filter {epics : List EpicIn} {q : Str × FeatIn}
    (hq : q ∈ allFeatPaths epics) (hnd : ((allFeats epics).map fidOf).Nodup) :
    (allUcPaths epics).filter (fun p => p.2.1 = fidOf q.2) =
      q.2.use_cases.map (fun u => (q.1, fidOf q.2, u)) := by
  rw [allUcPaths_eq]
  exact cmap_filter_key (fun q' => fidOf q'.2) (fun p : Str × Str × UcIn => p.2.1)
    (fun q' => q'.2.use_cases.map (fun u => (q'.1, fidOf q'.2, u)))
    (allFeatPaths epics) q hq ((allFeatPaths_keys epics).symm ▸ hnd)
    (fun a _ b hb => by obtain ⟨u, _, rfl⟩ := List.mem_map.mp hb; rfl)

end MedAssure

namespace MedAssure

theorem rmaps_epicsM (pid pname sid ts : Str) (meta : MetaIn)
    (epics : List EpicIn) (hwf : ∀ e ∈ epics, epicWF e)
    (hres : noReservedIds epics) (hnd : (epics.map eidOf).Nodup) :
    (List.foldl rstep ⟨[], [], [], []⟩
        (storeItems pid pname sid ts meta epics)).epicsM =
      epics.map (fun e => (eidOf e, (epicItem pid ts e).fields)) := by
  have h1 : (((storeItems pid pname sid ts meta epics).filterMap epicE).map
      Prod.fst).Nodup := by
    rw [filterMap_epicE pid pname sid ts meta epics hwf hres, List.map_map]
    exact hnd
  rw [foldl_rstep_epicsM _ ⟨[], [], [], []⟩ h1 (fun k _ => rfl),
    filterMap_epicE pid pname sid ts meta epics hwf hres]
  rfl

theorem rmaps_featsM (pid pname sid ts : Str) (meta : MetaIn)
    (epics : List EpicIn) (hwf : ∀ e ∈ epics, epicWF e)
    (hres : noReservedIds epics) (hnd : ((allFeats epics).map fidOf).Nodup) :
    (List.foldl rstep ⟨[], [], [], []⟩
        (storeItems pid pname sid ts meta epics)).featsM =
      (allFeatPaths epics).map
        (fun q => (fidOf q.2, ((featItem pid q.1 ts q.2).fields, q.1))) := by
  have hmapped : (storeItems pid pname sid ts meta epics).filterMap featE =
      (allFeatPaths epics).map
        (fun q => (fidOf q.2, ((featItem pid q.1 ts q.2).fields, q.1))) := by
    rw [filterMap_featE pid pname sid ts meta epics hwf hres]
    exact cmap_congr_single (fun a _ => rfl)
  have h1 : (((storeItems pid pname sid ts meta epics).filterMap featE).map
      Prod.fst).Nodup := by
    rw [hmapped, List.map_map]
    exact (allFeatPaths_keys epics).symm ▸ hnd
  rw [foldl_rstep_featsM _ ⟨[], [], [], []⟩ h1 (fun k _ => rfl), hmapped]
  rfl

theorem rmaps_ucsM (pid pname sid ts : Str) (meta : MetaIn)
    (epics : List EpicIn) (hwf : ∀ e ∈ epics, epicWF e)
    (hres : noReservedIds epics) (hnd : ((allUcs epics).map uidOf).Nodup) :
    (List.foldl rstep ⟨[], [], [], []⟩
        (storeItems pid pname sid ts meta epics)).ucsM =
      (allUcPaths epics).map
        (fun p => (uidOf p.2.2, ((ucItem pid p.1 p.2.1 ts p.2.2).fields, p.2.1))) := by
  have hmapped : (storeItems pid pname sid ts meta epics).filterMap ucE =
      (allUcPaths epics).map
        (fun p => (uidOf p.2.2, ((ucItem pid p.1 p.2.1 ts p.2.2).fields, p.2.1))) := by
    rw [filterMap_ucE pid pname sid ts meta epics hwf hres]
    exact cmap_congr_single (fun a _ => rfl)
  have h1 : (((storeItems pid pname sid ts meta epics).filterMap ucE).map
      Prod.fst).Nodup := by
    rw [hmapped, List.map_map]
    exact (allUcPaths_keys epics).symm ▸ hnd
  rw [foldl_rstep_ucsM _ ⟨[], [], [], []⟩ h1 (fun k _ => rfl), hmapped]
  rfl

theorem rmaps_tcsM (pid pname sid ts : Str) (meta : MetaIn)
    (epics : List EpicIn) (uid : Str) :
    alookup (List.foldl rstep ⟨[], [], [], []⟩
        (storeItems pid pname sid ts meta epics)).tcsM uid =
      combineB none ((storeItems pid pname sid ts meta epics).filterMap
        (tcE uid)) := by
  rw [foldl_rstep_tcsM]
  rfl

theorem tcs_bucket (pid pname sid ts : Str) (meta : MetaIn)
    (epics : List EpicIn) (hwf : ∀ e ∈ epics, epicWF e)
    (hres : noReservedIds epics) (hndu : ((allUcs epics).map uidOf).Nodup)
    (p : Str × Str × UcIn) (hp : p ∈ allUcPaths epics) :
    (combineB none ((storeItems pid pname sid ts meta epics).filterMap
        (tcE (uidOf p.2.2)))).getD [] =
      p.2.2.test_cases.map
        (fun t => (tcItem pid p.1 p.2.1 (uidOf p.2.2) ts t).fields) := by
  rw [filterMap_tcE pid pname sid ts (uidOf p.2.2) meta epics hwf hres,
    cmap_if_eq_unique (fun p' => uidOf p'.2.2) _ _ p hp
      ((allUcPaths_keys epics).symm ▸ hndu),
    combineB_none_getD]

end MedAssure

namespace MedAssure




theorem map_filter_tag {α β : Type} (g : α → β) (tag : β → Str) (tag' : α → Str)
    (k : Str) (l : List α) (htag : ∀ a, tag (g a) = tag' a) :
    (l.map g).filter (fun b => tag b = k) =
      (l.filter (fun a => tag' a = k)).map g := by
  induction l with
  | nil => rfl
  | cons a rest ih =>
    rw [List.map_cons, List.filter_cons, List.filter_cons]
    by_cases h : tag' a = k
    · rw [if_pos (by simp [htag a, h]), if_pos (by simp [h]), List.map_cons, ih]
    · rw [if_neg (by simp [htag a, h]), if_neg (by simp [h]), ih]

theorem reconstruct_storeItems (pid pname sid ts : Str) (meta : MetaIn)
    (epics : List EpicIn) (hwf : ∀ e ∈ epics, epicWF e)
    (hres : noReservedIds epics) (hu : uniqueIds epics) :
    reconstruct (storeItems pid pname sid ts meta epics) =
      epics.map (epicFull pid ts) := by
  obtain ⟨hndE, hndF, hndU, hndT⟩ := hu
  have hbkt : ∀ p ∈ allUcPaths epics,
      (alookup (List.foldl rstep ⟨[], [], [], []⟩
          (storeItems pid pname sid ts meta epics)).tcsM (uidOf p.2.2)).getD [] =
        p.2.2.test_cases.map
          (fun t => (tcItem pid p.1 p.2.1 (uidOf p.2.2) ts t).fields) := by
    intro p hp
    rw [rmaps_tcsM]
    exact tcs_bucket pid pname sid ts meta epics hwf hres hndU p hp
  have hucs2 : (List.foldl rstep ⟨[], [], [], []⟩
        (storeItems pid pname sid ts meta epics)).ucsM.map
        (fun x => (x.1, (⟨x.2.1,
          (alookup (List.foldl rstep ⟨[], [], [], []⟩
            (storeItems pid pname sid ts meta epics)).tcsM x.1).getD []⟩, x.2.2))) =
      (allUcPaths epics).map (ucFull pid ts) := by
    rw [rmaps_ucsM pid pname sid ts meta epics hwf hres hndU, List.map_map]
    apply List.map_congr_left
    intro p hp
    exact congrArg (fun z => (uidOf p.2.2,
      (UcOut.mk (ucItem pid p.1 p.2.1 ts p.2.2).fields z, p.2.1))) (hbkt p hp)
  have hfeats2 : (List.foldl rstep ⟨[], [], [], []⟩
        (storeItems pid pname sid ts meta epics)).featsM.map
        (fun x => (x.1, (⟨x.2.1,
          ((((allUcPaths epics).map (ucFull pid ts)).filter
            (fun uu => uu.2.2 = x.1)).map (fun uu => uu.2.1))⟩, x.2.2))) =
      (allFeatPaths epics).map (featFull pid ts) := by
    rw [rmaps_featsM pid pname sid ts meta epics hwf hres hndF, List.map_map]
    apply List.map_congr_left
    intro q hq
    have husc : (((allUcPaths epics).map (ucFull pid ts)).filter
          (fun uu => uu.2.2 = fidOf q.2)).map (fun uu => uu.2.1) =
        q.2.use_cases.map (fun u => (ucFull pid ts (q.1, fidOf q.2, u)).2.1) := by
      rw [map_filter_tag (ucFull pid ts) (fun uu => uu.2.2)
          (fun p : Str × Str × UcIn => p.2.1) (fidOf q.2) (allUcPaths epics)
          (fun p => rfl),
        allUcPaths_filter hq hndF, List.map_map, List.map_map]
      rfl
    exact congrArg (fun z => (fidOf q.2,
      (FeatOut.mk (featItem pid q.1 ts q.2).fields z, q.1))) husc
  simp only [reconstruct]
  rw [hucs2, hfeats2, rmaps_epicsM pid pname sid ts meta epics hwf hres hndE,
    List.map_map]
  apply List.map_congr_left
  intro e he
  have hfe : (((allFeatPaths epics).map (featFull pid ts)).filter
        (fun ff => ff.2.2 = eidOf e)).map (fun ff => ff.2.1) =
      e.features.map (fun f => (featFull pid ts (eidOf e, f)).2.1) := by
    rw [map_filter_tag (featFull pid ts) (fun ff => ff.2.2)
        (fun q : Str × FeatIn => q.1) (eidOf e) (allFeatPaths epics)
        (fun q => rfl),
      allFeatPaths_filter he hndE, List.map_map, List.map_map]
    rfl
  exact congrArg (EpicOut.mk (epicItem pid ts e).fields) hfe

end MedAssure

namespace MedAssure

theorem canonUcOut_ucFull (pid ts : Str) (p : Str × Str × UcIn) :
    canonUcOut ((ucFull pid ts p).2.1) = canonUcIn p.2.2 := by
  simp only [canonUcOut, canonUcIn, ucFull, UcS.mk.injEq]
  refine ⟨?_, ?_, ?_, ?_, ?_, ?_, ?_, ?_, ?_, ?_, ?_, ?_, ?_, ?_, ?_⟩
  · apply getStr_eq
    simp only [ucItem, List.append_assoc, List.cons_append, List.nil_append]
    simp +decide [alookup, alookup_optF_ne, alookup_lstF_ne, alookup_optF_hit,
      alookup_optF_hit', alookup_lstF_hit', alookup_optF_end, alookup_lstF_end]
  · apply getStr_eq
    simp only [ucItem, List.append_assoc, List.cons_append, List.nil_append]
    simp +decide [alookup, alookup_optF_ne, alookup_lstF_ne, alookup_optF_hit,
      alookup_optF_hit', alookup_lstF_hit', alookup_optF_end, alookup_lstF_end]
  · apply getStr_eq
    simp only [ucItem, List.append_assoc, List.cons_append, List.nil_append]
    simp +decide [alookup, alookup_optF_ne, alookup_lstF_ne, alookup_optF_hit,
      alookup_optF_hit', alookup_lstF_hit', alookup_optF_end, alookup_lstF_end]
  · apply getStr_eq
    simp only [ucItem, List.append_assoc, List.cons_append, List.nil_append]
    simp +decide [alookup, alookup_optF_ne, alookup_lstF_ne, alookup_optF_hit,
      alookup_optF_hit', alookup_lstF_hit', alookup_optF_end, alookup_lstF_end]
  · apply getStr_eq
    simp only [ucItem, List.append_assoc, List.cons_append, List.nil_append]
    simp +decide [alookup, alookup_optF_ne, alookup_lstF_ne, alookup_optF_hit,
      alookup_optF_hit', alookup_lstF_hit', alookup_optF_end, alookup_lstF_end]
  · apply getLst_eq
    simp only [ucItem, List.append_assoc, List.cons_append, List.nil_append]
    simp +decide [alookup, alookup_optF_ne, alookup_lstF_ne, alookup_optF_hit,
      alookup_optF_hit', alookup_lstF_hit', alookup_optF_end, alookup_lstF_end]
  · apply getLst_eq
    simp only [ucItem, List.append_assoc, List.cons_append, List.nil_append]
    simp +decide [alookup, alookup_optF_ne, alookup_lstF_ne, alookup_optF_hit,
      alookup_optF_hit', alookup_lstF_hit', alookup_optF_end, alookup_lstF_end]
  · apply getLst_eq
    simp only [ucItem, List.append_assoc, List.cons_append, List.nil_append]
    simp +decide [alookup, alookup_optF_ne, alookup_lstF_ne, alookup_optF_hit,
      alookup_optF_hit', alookup_lstF_hit', alookup_optF_end, alookup_lstF_end]
  · apply getOptS_eq
    simp only [ucItem, List.append_assoc, List.cons_append, List.nil_append]
    simp +decide [alookup, alookup_optF_ne, alookup_lstF_ne, alookup_optF_hit,
      alookup_optF_hit', alookup_lstF_hit', alookup_optF_end, alookup_lstF_end]
  · apply getOptS_eq
    simp only [ucItem, List.append_assoc, List.cons_append, List.nil_append]
    simp +decide [alookup, alookup_optF_ne, alookup_lstF_ne, alookup_optF_hit,
      alookup_optF_hit', alookup_lstF_hit', alookup_optF_end, alookup_lstF_end]
  · apply getOptS_eq
    simp only [ucItem, List.append_assoc, List.cons_append, List.nil_append]
    simp +decide [alookup, alookup_optF_ne, alookup_lstF_ne, alookup_optF_hit,
      alookup_optF_hit', alookup_lstF_hit', alookup_optF_end, alookup_lstF_end]
  · apply getOptS_eq
    simp only [ucItem, List.append_assoc, List.cons_append, List.nil_append]
    simp +decide [alookup, alookup_optF_ne, alookup_lstF_ne, alookup_optF_hit,
      alookup_optF_hit', alookup_lstF_hit', alookup_optF_end, alookup_lstF_end]
  · apply getOptS_eq
    simp only [ucItem, List.append_assoc, List.cons_append, List.nil_append]
    simp +decide [alookup, alookup_optF_ne, alookup_lstF_ne, alookup_optF_hit,
      alookup_optF_hit', alookup_lstF_hit', alookup_optF_end, alookup_lstF_end]
  · apply getOptS_eq
    simp only [ucItem, List.append_assoc, List.cons_append, List.nil_append]
    simp +decide [alookup, alookup_optF_ne, alookup_lstF_ne, alookup_optF_hit,
      alookup_optF_hit', alookup_lstF_hit', alookup_optF_end, alookup_lstF_end]
  · rw [List.map_map]
    exact congrArg Multiset.ofList
      (List.map_congr_left (fun t _ => canonTcF_tcItem pid p.1 p.2.1 (uidOf p.2.2) ts t))

theorem canonFeatOut_featFull (pid ts : Str) (q : Str × FeatIn) :
    canonFeatOut ((featFull pid ts q).2.1) = canonFeatIn q.2 := by
  simp only [canonFeatOut, canonFeatIn, featFull, FeatS.mk.injEq]
  refine ⟨?_, ?_, ?_, ?_, ?_, ?_, ?_, ?_, ?_⟩
  · apply getStr_eq
    simp only [featItem, List.append_assoc, List.cons_append, List.nil_append]
    simp +decide [alookup, alookup_optF_ne, alookup_lstF_ne, alookup_optF_hit,
      alookup_optF_hit', alookup_lstF_hit', alookup_optF_end, alookup_lstF_end]
  · apply getStr_eq
    simp only [featItem, List.append_assoc, List.cons_append, List.nil_append]
    simp +decide [alookup, alookup_optF_ne, alookup_lstF_ne, alookup_optF_hit,
      alookup_optF_hit', alookup_lstF_hit', alookup_optF_end, alookup_lstF_end]
  · apply getStr_eq
    simp only [featItem, List.append_assoc, List.cons_append, List.nil_append]
    simp +decide [alookup, alookup_optF_ne, alookup_lstF_ne, alookup_optF_hit,
      alookup_optF_hit', alookup_lstF_hit', alookup_optF_end, alookup_lstF_end]
  · apply getStr_eq
    simp only [featItem, List.append_assoc, List.cons_append, List.nil_append]
    simp +decide [alookup, alookup_optF_ne, alookup_lstF_ne, alookup_optF_hit,
      alookup_optF_hit', alookup_lstF_hit', alookup_optF_end, alookup_lstF_end]
  · apply getOptS_eq
    simp only [featItem, List.append_assoc, List.cons_append, List.nil_append]
    simp +decide [alookup, alookup_optF_ne, alookup_lstF_ne, alookup_optF_hit,
      alookup_optF_hit', alookup_lstF_hit', alookup_optF_end, alookup_lstF_end]
  · apply getOptS_eq
    simp only [featItem, List.append_assoc, List.cons_append, List.nil_append]
    simp +decide [alookup, alookup_optF_ne, alookup_lstF_ne, alookup_optF_hit,
      alookup_optF_hit', alookup_lstF_hit', alookup_optF_end, alookup_lstF_end]
  · apply getOptS_eq
    simp only [featItem, List.append_assoc, List.cons_append, List.nil_append]
    simp +decide [alookup, alookup_optF_ne, alookup_lstF_ne, alookup_optF_hit,
      alookup_optF_hit', alookup_lstF_hit', alookup_optF_end, alookup_lstF_end]
  · apply getOptS_eq
    simp only [featItem, List.append_assoc, List.cons_append, List.nil_append]
    simp +decide [alookup, alookup_optF_ne, alookup_lstF_ne, alookup_optF_hit,
      alookup_optF_hit', alookup_lstF_hit', alookup_optF_end, alookup_lstF_end]
  · rw [List.map_map]
    exact congrArg Multiset.ofList
      (List.map_congr_left (fun u _ => canonUcOut_ucFull pid ts (q.1, fidOf q.2, u)))

theorem canonEpicOut_epicFull (pid ts : Str) (e : EpicIn) :
    canonEpicOut (epicFull pid ts e) = canonEpicIn e := by
  simp only [canonEpicOut, canonEpicIn, epicFull, EpicS.mk.injEq]
  refine ⟨?_, ?_, ?_, ?_, ?_, ?_, ?_, ?_, ?_⟩
  · apply getStr_eq
    simp only [epicItem, List.append_assoc, List.cons_append, List.nil_append]
    simp +decide [alookup, alookup_optF_ne, alookup_lstF_ne, alookup_optF_hit,
      alookup_optF_hit', alookup_lstF_hit', alookup_optF_end, alookup_lstF_end]
  · apply getStr_eq
    simp only [epicItem, List.append_assoc, List.cons_append, List.nil_append]
    simp +decide [alookup, alookup_optF_ne, alookup_lstF_ne, alookup_optF_hit,
      alookup_optF_hit', alookup_lstF_hit', alookup_optF_end, alookup_lstF_end]
  · apply getStr_eq
    simp only [epicItem, List.append_assoc, List.cons_append, List.nil_append]
    simp +decide [alookup, alookup_optF_ne, alookup_lstF_ne, alookup_optF_hit,
      alookup_optF_hit', alookup_lstF_hit', alookup_optF_end, alookup_lstF_end]
  · apply getStr_eq
    simp only [epicItem, List.append_assoc, List.cons_append, List.nil_append]
    simp +decide [alookup, alookup_optF_ne, alookup_lstF_ne, alookup_optF_hit,
      alookup_optF_hit', alookup_lstF_hit', alookup_optF_end, alookup_lstF_end]
  · apply getOptS_eq
    simp only [epicItem, List.append_assoc, List.cons_append, List.nil_append]
    simp +decide [alookup, alookup_optF_ne, alookup_lstF_ne, alookup_optF_hit,
      alookup_optF_hit', alookup_lstF_hit', alookup_optF_end, alookup_lstF_end]
  · apply getOptS_eq
    simp only [epicItem, List.append_assoc, List.cons_append, List.nil_append]
    simp +decide [alookup, alookup_optF_ne, alookup_lstF_ne, alookup_optF_hit,
      alookup_optF_hit', alookup_lstF_hit', alookup_optF_end, alookup_lstF_end]
  · apply getOptS_eq
    simp only [epicItem, List.append_assoc, List.cons_append, List.nil_append]
    simp +decide [alookup, alookup_optF_ne, alookup_lstF_ne, alookup_optF_hit,
      alookup_optF_hit', alookup_lstF_hit', alookup_optF_end, alookup_lstF_end]
  · apply getOptS_eq
    simp only [epicItem, List.append_assoc, List.cons_append, List.nil_append]
    simp +decide [alookup, alookup_optF_ne, alookup_lstF_ne, alookup_optF_hit,
      alookup_optF_hit', alookup_lstF_hit', alookup_optF_end, alookup_lstF_end]
  · rw [List.map_map]
    exact congrArg Multiset.ofList
      (List.map_congr_left (fun f _ => canonFeatOut_featFull pid ts (eidOf e, f)))

end MedAssure

namespace MedAssure

/-- C1, amended: for a well-formed input tree (ids present, `'#'`-free and
unique project-wide) that additionally uses no reserved id (`UC`/`TC` as an
epic id, `TC` as a feature id), `store_test_artifacts` followed by
`get_project_artifacts` returns a tree whose canonical shape (ids and leaf
field values, children as multisets) equals the input's at every level. -/
theorem C1_round_trip (pid pname sid ts : Str) (meta : MetaIn)
    (epics : List EpicIn) (hwf : ∀ e ∈ epics, epicWF e)
    (hu : uniqueIds epics) (hres : noReservedIds epics) :
    ∃ out, getProjectArtifactsOpt pid
        (storeTestArtifacts none pid pname sid ts meta epics []).2 = some out ∧
      Multiset.ofList (out.map canonEpicOut) =
        Multiset.ofList (epics.map canonEpicIn) := by
  have hnds : ((storeItems pid pname sid ts meta epics).map Item.sk).Nodup :=
    sks_nodup_storeItems pid pname sid ts meta epics hwf hu.1
      (fun e he => nodup_feats_of_global hu.2.1 he)
      (fun e he f hf => nodup_ucs_of_global hu.2.2.1 he hf)
      (fun e he f hf u hu' => nodup_tcs_of_global hu.2.2.2 he hf hu')
  have hq : queryProject pid
      (storeTestArtifacts none pid pname sid ts meta epics []).2 =
      storeItems pid pname sid ts meta epics :=
    query_runPuts_storeItems pid pname sid ts meta epics hnds
  refine ⟨reconstruct (storeItems pid pname sid ts meta epics), ?_, ?_⟩
  · simp only [getProjectArtifactsOpt, hq]
    rfl
  · rw [reconstruct_storeItems pid pname sid ts meta epics hwf hres hu,
      List.map_map]
    exact congrArg Multiset.ofList
      (List.map_congr_left (fun e _ => canonEpicOut_epicFull pid ts e))

/-- C1, counterexample: `cexTree` satisfies the spec's well-formedness (ids
present, `'#'`-free, unique) but its epic id is the literal `UC`, so the
feature's sort key contains `#UC#`, the item is misclassified on read, and
the round trip is not an isomorphism even up to child reordering. -/
theorem C1_counterexample :
    (∀ e ∈ cexTree, epicWF e) ∧ uniqueIds cexTree ∧
      (getProjectArtifactsOpt "P1".data
          (storeTestArtifacts none "P1".data "Proj".data "S".data "T".data
            metaNone cexTree []).2).map
          (fun out => Multiset.ofList (out.map canonEpicOut)) ≠
        some (Multiset.ofList (cexTree.map canonEpicIn)) := by
  refine ⟨by decide, by decide, by decide⟩

/-- C1, witness: the amended round trip at the concrete `demoTree`. -/
theorem C1_round_trip_witness :
    (∀ e ∈ demoTree, epicWF e) ∧ uniqueIds demoTree ∧ noReservedIds demoTree ∧
    ∃ out, getProjectArtifactsOpt "P1".data
        (storeTestArtifacts none "P1".data "Proj".data "S".data "T".data
          metaNone demoTree []).2 = some out ∧
      Multiset.ofList (out.map canonEpicOut) =
        Multiset.ofList (demoTree.map canonEpicIn) :=
  ⟨by decide, by decide, by decide,
   C1_round_trip "P1".data "Proj".data "S".data "T".data metaNone demoTree
     (by decide) (by decide) (by decide)⟩

end MedAssure

namespace MedAssure


/-- C10: the reconstruction maps are keyed by bare ids, so of the two use
cases of `dupTree` that share `U0` under different features only the second
survives, it is attached under the second feature, and it carries the test
cases of both; the first feature comes back with no use cases. -/
theorem C10_bare_id_maps :
    (allUcs dupTree).map uidOf = ["U0".data, "U0".data] ∧
    (allFeats dupTree).map fidOf = ["F1".data, "F2".data] ∧
    (getProjectArtifactsOpt "P1".data
        (storeTestArtifacts none "P1".data "Proj".data "S".data "T".data
          metaNone dupTree []).2).map
        (fun out => out.map (fun e => e.features.map (fun f =>
          f.use_cases.map (fun u =>
            (getStr u.data "use_case_id".data,
             u.test_cases.map (fun fs => getStr fs "test_case_id".data)))))) =
      some [[[], [("U0".data, ["T1".data, "T2".data])]]] := by
  refine ⟨by decide, by decide, by decide⟩

end MedAssure
